import Mathlib

/-!
Verification development for the UCAN inspector core: a shallow embedding of
the container/envelope parsing and token analysis pipeline
(`src/utils/ucanContainer.ts`, `src/utils/ucanAnalysis.ts`) together with
theorems about its behaviour.

Modelling conventions:
- JavaScript byte arrays (`Uint8Array`) are `List Nat`; machine bytes are
  below 256 where that matters, which is stated as an explicit hypothesis.
- JavaScript values decoded from CBOR are modelled by the inductive `JsValue`.
  The `Map` branch and the plain-object branch of `asKeyedMap` expose the same
  keys/lookup view, so both are modelled by the single `obj` constructor.
- Fallible code returns `Except`; the thrown `ContainerParseError` keeps the
  constructor argument order of the source (`message`, `stage`, `code`).
- External collaborators (base64 decode, gzip, the CBOR codec, the envelope
  codec, signature verification, CID computation, the clock and the
  timestamp/relative-time formatters) are injected as service records, exactly
  the "external collaborator" boundary the repository draws; the pipeline
  logic itself is embedded concretely.
- `encodeBase64` (RFC 4648, padded standard / unpadded url alphabet) is small
  and fixed, so it is embedded concretely rather than kept abstract.
-/

namespace UcanInspector

/-- Supported payload encodings for UCAN container bytes. -/
inductive ContainerEncoding where
  | raw
  | base64
  | base64url
deriving DecidableEq, Repr

/-- Supported compression modes for UCAN container bytes. -/
inductive ContainerCompression where
  | none
  | gzip
deriving DecidableEq, Repr

/-- Base64 alphabet variants used by the project (`iso-base` rfc4648). -/
inductive Base64Variant where
  | standard
  | url
deriving DecidableEq, Repr

/-- Severity levels for container diagnostics. -/
inductive ContainerDiagnosticLevel where
  | notice
  | warn
deriving DecidableEq, Repr

/-- A non-fatal diagnostic produced while parsing a container. -/
structure ContainerDiagnostic where
  level : ContainerDiagnosticLevel
  code : String
  message : String
deriving DecidableEq, Repr

/-- Parsing stage tags of `ContainerParseError`. -/
inductive ParseStage where
  | header
  | decode
  | decompress
  | cbor
deriving DecidableEq, Repr

/-- Error thrown when a UCAN container cannot be parsed; field order follows
the source constructor (`message`, `stage`, `code`). -/
structure ContainerParseError where
  message : String
  stage : ParseStage
  code : String
deriving DecidableEq, Repr

/-- Parsed container header details; `raw` is the first byte/character. -/
structure ContainerHeader where
  raw : Nat
  encoding : ContainerEncoding
  compression : ContainerCompression
deriving DecidableEq, Repr

/-- A decoded JavaScript value, as produced by the CBOR codec and consumed by
the export serializer.  `obj` covers both plain objects and `Map` instances
(`asKeyedMap` gives them the same keys/lookup view); `bytes` is `Uint8Array`;
`cid` is a parsed CID instance; `undef` is the JavaScript `undefined`. -/
inductive JsValue where
  | obj (entries : List (String × JsValue))
  | arr (elems : List JsValue)
  | bytes (data : List Nat)
  | str (s : String)
  | num (n : Int)
  | bool (b : Bool)
  | cid (s : String)
  | nullV
  | undef

/-- Result of parsing a UCAN container. -/
structure ContainerParseResult where
  header : ContainerHeader
  payloadBytes : List Nat
  cbor : JsValue
  tokens : List (List Nat)
  diagnostics : List ContainerDiagnostic

/-- External services the container parser delegates to: base64/base64url
decoding (`iso-base`), gzip decompression (`pako.ungzip`) and CBOR decoding
(`cborg.decode`).  Each throws in the source; here each returns `Except` with
the thrown error message. -/
structure ContainerServices where
  decodeBase64 : String → Base64Variant → Except String (List Nat)
  ungzip : List Nat → Except String (List Nat)
  decodeCbor : List Nat → Except String JsValue

/-- The standard base64 alphabet (RFC 4648 section 4). -/
def base64StdAlphabet : List Char :=
  "ABCDEFGHIJKLMNOPQRSTUVWXYZabcdefghijklmnopqrstuvwxyz0123456789+/".data

/-- The url-safe base64 alphabet (RFC 4648 section 5). -/
def base64UrlAlphabet : List Char :=
  "ABCDEFGHIJKLMNOPQRSTUVWXYZabcdefghijklmnopqrstuvwxyz0123456789-_".data

/-- Character for one 6-bit group. -/
def sextetChar (variant : Base64Variant) (n : Nat) : Char :=
  match variant with
  | .standard => base64StdAlphabet.getD n 'A'
  | .url => base64UrlAlphabet.getD n 'A'

/-- RFC 4648 base64 of a byte list, as a character list: standard variant is
padded with `=`, url variant is unpadded — the behaviour of `iso-base`'s
`base64pad` / `base64url` encoders used by `encodeBase64`. -/
def encodeBase64Chars (variant : Base64Variant) : List Nat → List Char
  | b1 :: b2 :: b3 :: rest =>
      sextetChar variant (b1 / 4) ::
      sextetChar variant (b1 % 4 * 16 + b2 / 16) ::
      sextetChar variant (b2 % 16 * 4 + b3 / 64) ::
      sextetChar variant (b3 % 64) ::
      encodeBase64Chars variant rest
  | [b1, b2] =>
      [sextetChar variant (b1 / 4),
       sextetChar variant (b1 % 4 * 16 + b2 / 16),
       sextetChar variant (b2 % 16 * 4)] ++
      (match variant with | .standard => ['='] | .url => [])
  | [b1] =>
      [sextetChar variant (b1 / 4),
       sextetChar variant (b1 % 4 * 16)] ++
      (match variant with | .standard => ['=', '='] | .url => [])
  | [] => []

/-- `encodeBase64(bytes, variant)` from `utils/base64.ts`. -/
def encodeBase64 (bytes : List Nat) (variant : Base64Variant) : String :=
  String.mk (encodeBase64Chars variant bytes)

/-- One entry of the container header table. -/
structure HeaderInfo where
  encoding : ContainerEncoding
  compression : ContainerCompression
  variant : Option Base64Variant
deriving DecidableEq, Repr

/-- One entry of the text-only container header table. -/
structure TextHeaderInfo where
  encoding : ContainerEncoding
  compression : ContainerCompression
  variant : Base64Variant
deriving DecidableEq, Repr

/-- The fixed six-entry header table (`headerTable`): first byte to
encoding/compression/base64-variant. -/
def headerTable : Nat → Option HeaderInfo
  | 0x40 => some ⟨.raw, .none, Option.none⟩
  | 0x42 => some ⟨.base64, .none, some .standard⟩
  | 0x43 => some ⟨.base64url, .none, some .url⟩
  | 0x4D => some ⟨.raw, .gzip, Option.none⟩
  | 0x4F => some ⟨.base64, .gzip, some .standard⟩
  | 0x50 => some ⟨.base64url, .gzip, some .url⟩
  | _ => Option.none

/-- The four-entry table accepted by the text entry point (`textHeaderTable`). -/
def textHeaderTable : Nat → Option TextHeaderInfo
  | 0x42 => some ⟨.base64, .none, .standard⟩
  | 0x43 => some ⟨.base64url, .none, .url⟩
  | 0x4F => some ⟨.base64, .gzip, .standard⟩
  | 0x50 => some ⟨.base64url, .gzip, .url⟩
  | _ => Option.none

/-- Whitespace removal, modelling `input.replaceAll(/\s+/g, "")`. -/
def removeWhitespace (s : String) : String :=
  String.mk (s.data.filter (fun c => !c.isWhitespace))

/-- JavaScript `String.prototype.trim`: strip leading and trailing
whitespace.  Defined over the character list directly. -/
def jsTrim (s : String) : String :=
  String.mk (((s.data.dropWhile Char.isWhitespace).reverse.dropWhile Char.isWhitespace).reverse)

/-- The diagnostic pushed when a base64url payload carries padding. -/
def base64urlPaddingDiag : ContainerDiagnostic :=
  ⟨.notice, "base64url_padding_present",
    "Header indicates base64url (no padding) but payload contains padding. Padding will be stripped for decoding."⟩

/-- The diagnostic pushed when a padded-base64 payload has irregular length. -/
def base64PaddingMissingDiag : ContainerDiagnostic :=
  ⟨.notice, "base64_padding_missing",
    "Header indicates padded base64 but payload length is not a multiple of 4. Padding will be added for decoding."⟩

/-- `normalizeEncodedPayload` from `ucanContainer.ts`: strips whitespace, then
for base64url strips stray `=` padding (with a notice diagnostic) and for
standard base64 pads to the next multiple of 4 (with a notice diagnostic).
The mutated diagnostics array is threaded explicitly. -/
def normalizeEncodedPayload (input : String) (variant : Base64Variant)
    (diagnostics : List ContainerDiagnostic) : String × List ContainerDiagnostic :=
  let value := removeWhitespace input
  match variant with
  | .url =>
      let diagnostics :=
        if value.data.contains '=' then diagnostics ++ [base64urlPaddingDiag] else diagnostics
      (String.mk (value.data.filter (fun c => c ≠ '=')), diagnostics)
  | .standard =>
      let diagnostics :=
        if value.length % 4 ≠ 0 then diagnostics ++ [base64PaddingMissingDiag] else diagnostics
      let padLength := (4 - value.length % 4) % 4
      (value ++ String.mk (List.replicate padLength '='), diagnostics)

/-- `decodeBase64WithContext`: wraps a decoder failure in a
`ContainerParseError` at stage `decode`. -/
def decodeBase64WithContext (svc : ContainerServices) (input : String)
    (variant : Base64Variant) : Except ContainerParseError (List Nat) :=
  match svc.decodeBase64 input variant with
  | .ok bytes => .ok bytes
  | .error msg =>
      let name := match variant with | .standard => "base64" | .url => "base64url"
      .error ⟨s!"Failed to decode {name} payload: {msg}", .decode, "base64_decode_failed"⟩

/-- The keys view of `asKeyedMap`: `Map` keys or `Object.keys`.  A `Uint8Array`
is a plain object whose own enumerable keys are its index strings, so the
`bytes` case yields those; arrays and primitives yield no keyed view. -/
def asKeyedMapKeys : JsValue → Option (List String)
  | .obj entries => some (entries.map Prod.fst)
  | .bytes data => some ((List.range data.length).map (fun i => toString i))
  | _ => Option.none

/-- The lookup view of `asKeyedMap` (`record[key]` / `map.get(key)`),
`Option.none` standing for the JavaScript `undefined` of a missed lookup. -/
def asKeyedMapGet : JsValue → String → Option JsValue
  | .obj entries, key => (entries.find? (fun e => e.1 == key)).map Prod.snd
  | .bytes data, key =>
      (((List.range data.length).map (fun i => (toString i, JsValue.num (data.getD i 0)))).find?
        (fun e => e.1 == key)).map Prod.snd
  | _, _ => Option.none

/-- The notice diagnostic for an empty `ctn-v1` array. -/
def emptyContainerDiag : ContainerDiagnostic :=
  ⟨.notice, "empty_container", "Container contains an empty \"ctn-v1\" array."⟩

/-- The elementwise token extraction of `extractTokensStrict`
(`tokensRaw.map(...)` with a throw on any non-`Uint8Array` element). -/
def tokensFromArray (index : Nat) : List JsValue → Except ContainerParseError (List (List Nat))
  | [] => .ok []
  | .bytes data :: rest =>
      match tokensFromArray (index + 1) rest with
      | .ok tokens => .ok (data :: tokens)
      | .error e => .error e
  | _ :: _ =>
      .error ⟨s!"Container token at index {index} must be a CBOR byte string (Uint8Array)",
        .cbor, "token_not_byte_string"⟩

/-- Comma-separated key list used in the `invalid_container_map_keys` message. -/
def joinKeys : List String → String
  | [] => ""
  | [k] => k
  | k :: rest => k ++ ", " ++ joinKeys rest

/-- `extractTokensStrict`: the decoded CBOR value must be a keyed map with the
single key `ctn-v1`, holding an array of byte strings; an empty array adds the
`empty_container` notice.  The diagnostics array is threaded explicitly. -/
def extractTokensStrict (cbor : JsValue) (diagnostics : List ContainerDiagnostic) :
    Except ContainerParseError (List (List Nat) × List ContainerDiagnostic) :=
  match asKeyedMapKeys cbor with
  | Option.none => .error ⟨"CBOR payload must be a map/object", .cbor, "cbor_not_map"⟩
  | some keys =>
      if keys.length ≠ 1 ∨ keys.head? ≠ some "ctn-v1" then
        let found := if keys.length = 0 then "none" else joinKeys keys
        .error ⟨s!"CBOR payload must be a map with exactly one key \"ctn-v1\" (found: {found})",
          .cbor, "invalid_container_map_keys"⟩
      else
        match asKeyedMapGet cbor "ctn-v1" with
        | some (.arr tokensRaw) =>
            let diagnostics :=
              if tokensRaw.length = 0 then diagnostics ++ [emptyContainerDiag] else diagnostics
            match tokensFromArray 0 tokensRaw with
            | .ok tokens => .ok (tokens, diagnostics)
            | .error e => .error e
        | _ => .error ⟨"CBOR payload \"ctn-v1\" must be an array", .cbor, "ctn_v1_not_array"⟩

/-- `compareBytes`: unsigned bytewise lexicographic comparison, with the
length difference deciding on common-prefix equality. -/
def compareBytes : List Nat → List Nat → Int
  | x :: xs, y :: ys =>
      if (x : Int) - (y : Int) ≠ 0 then (x : Int) - (y : Int) else compareBytes xs ys
  | l, r => (l.length : Int) - (r.length : Int)

/-- The duplicate-token diagnostic with its count-carrying message. -/
def duplicateTokensDiag (duplicateCount : Nat) : ContainerDiagnostic :=
  let plural := if duplicateCount = 1 then "" else "s"
  ⟨.warn, "duplicate_tokens",
    s!"Container contains {duplicateCount} duplicated token{plural} (tokens SHOULD NOT be duplicated)."⟩

/-- The not-bytewise-sorted diagnostic. -/
def tokensNotSortedDiag : ContainerDiagnostic :=
  ⟨.warn, "tokens_not_sorted",
    "Container tokens are not bytewise-sorted. Canonical containers MUST be bytewise sorted for deterministic encoding."⟩

/-- The number of distinct duplicated token keys counted by
`diagnoseCanonicality` (`seen` map entries with count above one); the key of a
token is its base64url encoding, as in the source. -/
def duplicateCount (tokens : List (List Nat)) : Nat :=
  let tokenKeys := tokens.map (fun token => encodeBase64 token .url)
  ((tokenKeys.dedup).filter (fun key => 1 < tokenKeys.count key)).length

/-- The adjacent-inversion scan of `diagnoseCanonicality`. -/
def hasOutOfOrderPair : List (List Nat) → Bool
  | a :: b :: rest => 0 < compareBytes a b || hasOutOfOrderPair (b :: rest)
  | _ => false

/-- `diagnoseCanonicality`: on two or more tokens, push a warn diagnostic when
duplicates exist and a warn diagnostic when the list is not bytewise sorted. -/
def diagnoseCanonicality (tokens : List (List Nat))
    (diagnostics : List ContainerDiagnostic) : List ContainerDiagnostic :=
  if tokens.length ≤ 1 then diagnostics
  else
    let dupCount := duplicateCount tokens
    let diagnostics :=
      if 0 < dupCount then diagnostics ++ [duplicateTokensDiag dupCount] else diagnostics
    if hasOutOfOrderPair tokens then diagnostics ++ [tokensNotSortedDiag] else diagnostics

/-- The canonical sort applied to extracted tokens: JavaScript
`[...tokens].sort(compareBytes)` for two or more tokens.  The comparator is a
total order (`compareBytes_antisymm`, `compareBytes_le_trans`), so the sorted
result modelled by `mergeSort` is the unique sorted permutation the
JavaScript engine also produces. -/
def sortTokens (tokens : List (List Nat)) : List (List Nat) :=
  if 1 < tokens.length then
    tokens.mergeSort (fun a b => decide (compareBytes a b ≤ 0))
  else tokens

/-- `parseDecodedBytes`: decompress when the header says gzip, decode CBOR,
strictly extract tokens, compute canonicality diagnostics and return the
bytewise-sorted token list. -/
def parseDecodedBytes (svc : ContainerServices) (headerRaw : Nat)
    (headerEncoding : ContainerEncoding) (headerCompression : ContainerCompression)
    (encodedBytes : List Nat) (diagnostics : List ContainerDiagnostic) :
    Except ContainerParseError ContainerParseResult :=
  let payloadResult : Except ContainerParseError (List Nat) :=
    match headerCompression with
    | .gzip =>
        match svc.ungzip encodedBytes with
        | .ok decompressed => .ok decompressed
        | .error msg =>
            .error ⟨s!"Failed to decompress gzip payload: {msg}", .decompress, "gzip_decompress_failed"⟩
    | .none => .ok encodedBytes
  match payloadResult with
  | .error e => .error e
  | .ok payloadBytes =>
      match svc.decodeCbor payloadBytes with
      | .error msg => .error ⟨s!"Failed to decode CBOR payload: {msg}", .cbor, "cbor_decode_failed"⟩
      | .ok cbor =>
          match extractTokensStrict cbor diagnostics with
          | .error e => .error e
          | .ok (tokens, diagnostics) =>
              let diagnostics := diagnoseCanonicality tokens diagnostics
              .ok { header := ⟨headerRaw, headerEncoding, headerCompression⟩
                    payloadBytes := payloadBytes
                    cbor := cbor
                    tokens := sortTokens tokens
                    diagnostics := diagnostics }

/-- `parseUcanContainerText`: trim, resolve the text header table (rejecting
raw-bytes headers and unknown headers), reject an empty payload, normalize and
decode the base64 payload, then hand off to `parseDecodedBytes`. -/
def parseUcanContainerText (svc : ContainerServices) (input : String) :
    Except ContainerParseError ContainerParseResult :=
  let value := jsTrim input
  if value = "" then .error ⟨"Input is empty", .header, "empty_input"⟩
  else
    let diagnostics : List ContainerDiagnostic := []
    let headerChar := (value.data.headD ' ').toNat
    match textHeaderTable headerChar with
    | Option.none =>
        if (headerTable headerChar).isSome then
          let headerAscii := String.mk [Char.ofNat headerChar]
          .error ⟨s!"Header {headerAscii} indicates a raw-bytes container. Text input only supports B/C/O/P containers.",
            .header, "raw_bytes_header_in_text"⟩
        else
          let hex := String.mk (Nat.toDigits 16 headerChar)
          .error ⟨s!"Unknown header byte: 0x{hex}", .header, "unknown_header"⟩
    | some headerInfo =>
        let encodedPayload := jsTrim (String.mk (value.data.drop 1))
        if encodedPayload = "" then
          .error ⟨"Container payload is empty", .decode, "empty_payload"⟩
        else
          match normalizeEncodedPayload encodedPayload headerInfo.variant diagnostics with
          | (normalized, diagnostics) =>
              match decodeBase64WithContext svc normalized headerInfo.variant with
              | .error e => .error e
              | .ok decodedBytes =>
                  parseDecodedBytes svc headerChar headerInfo.encoding headerInfo.compression
                    decodedBytes diagnostics

/-- Trivial container services used by concrete witnesses: base64 decodes to
no bytes, gzip is the identity, and CBOR decodes to an empty container map. -/
def trivialContainerServices : ContainerServices where
  decodeBase64 := fun _ _ => .ok []
  ungzip := fun b => .ok b
  decodeCbor := fun _ => .ok (.obj [("ctn-v1", .arr [])])

/-! ### Properties of the byte comparator -/

theorem compareBytes_nil_right (l : List Nat) : compareBytes l [] = (l.length : Int) := by
  cases l <;> simp [compareBytes]

theorem compareBytes_nil_left (r : List Nat) : compareBytes [] r = -(r.length : Int) := by
  cases r <;> simp [compareBytes]

theorem compareBytes_cons_cons (x y : Nat) (xs ys : List Nat) :
    compareBytes (x :: xs) (y :: ys) =
      if (x : Int) - (y : Int) ≠ 0 then (x : Int) - (y : Int) else compareBytes xs ys := rfl

theorem compareBytes_eq_zero_iff : ∀ a b : List Nat, compareBytes a b = 0 ↔ a = b := by
  intro a
  induction a with
  | nil =>
    intro b
    cases b with
    | nil => simp [compareBytes]
    | cons y ys =>
      rw [compareBytes_nil_left]
      simp
      omega
  | cons x xs ih =>
    intro b
    cases b with
    | nil =>
      rw [compareBytes_nil_right]
      simp
      omega
    | cons y ys =>
      rw [compareBytes_cons_cons]
      by_cases hxy : (x : Int) - (y : Int) = 0
      · have hx : x = y := by omega
        rw [if_neg (by omega)]
        simp [hx, ih ys]
      · rw [if_pos hxy]
        constructor
        · intro h
          exact absurd h hxy
        · intro h
          injection h with h1 h2
          omega

theorem compareBytes_neg : ∀ a b : List Nat, compareBytes a b = -compareBytes b a := by
  intro a
  induction a with
  | nil =>
    intro b
    rw [compareBytes_nil_left, compareBytes_nil_right]
  | cons x xs ih =>
    intro b
    cases b with
    | nil =>
      rw [compareBytes_nil_left, compareBytes_nil_right]
      omega
    | cons y ys =>
      rw [compareBytes_cons_cons, compareBytes_cons_cons]
      by_cases hxy : (x : Int) - (y : Int) = 0
      · rw [if_neg (by omega), if_neg (by omega)]
        exact ih ys
      · rw [if_pos hxy, if_pos (by omega)]
        omega

theorem compareBytes_le_trans :
    ∀ a b c : List Nat, compareBytes a b ≤ 0 → compareBytes b c ≤ 0 → compareBytes a c ≤ 0 := by
  intro a
  induction a with
  | nil =>
    intro b c _ _
    rw [compareBytes_nil_left]
    omega
  | cons x xs ih =>
    intro b c hab hbc
    cases b with
    | nil =>
      rw [compareBytes_nil_right] at hab
      have hlen : (0 : Int) < ((x :: xs).length : Int) := by
        exact_mod_cast List.length_pos.mpr (by simp)
      omega
    | cons y ys =>
      cases c with
      | nil =>
        rw [compareBytes_nil_right] at hbc
        have hlen : (0 : Int) < ((y :: ys).length : Int) := by
          exact_mod_cast List.length_pos.mpr (by simp)
        omega
      | cons z zs =>
        rw [compareBytes_cons_cons] at hab hbc ⊢
        by_cases hxy : (x : Int) - (y : Int) = 0 <;>
          by_cases hyz : (y : Int) - (z : Int) = 0
        · rw [if_neg (by omega)] at hab
          rw [if_neg (by omega)] at hbc
          rw [if_neg (by omega)]
          exact ih ys zs hab hbc
        · rw [if_neg (by omega)] at hab
          rw [if_pos hyz] at hbc
          rw [if_pos (by omega)]
          omega
        · rw [if_pos hxy] at hab
          rw [if_neg (by omega)] at hbc
          rw [if_pos (by omega)]
          omega
        · rw [if_pos hxy] at hab
          rw [if_pos hyz] at hbc
          rw [if_pos (by omega)]
          omega

theorem compareBytes_total (a b : List Nat) : compareBytes a b ≤ 0 ∨ compareBytes b a ≤ 0 := by
  rw [compareBytes_neg a b]
  omega

theorem compareBytes_antisymm {a b : List Nat}
    (h1 : compareBytes a b ≤ 0) (h2 : compareBytes b a ≤ 0) : a = b := by
  rw [compareBytes_neg b a] at h2
  exact (compareBytes_eq_zero_iff a b).mp (by omega)

/-! ### Properties of the canonical token sort -/

theorem sortTokens_sorted (tokens : List (List Nat)) :
    (sortTokens tokens).Pairwise (fun a b => compareBytes a b ≤ 0) := by
  unfold sortTokens
  split
  · have h := @List.sorted_mergeSort (List Nat)
      (fun a b => decide (compareBytes a b ≤ 0))
      (fun a b c h1 h2 => by
        simp only [decide_eq_true_eq] at h1 h2 ⊢
        exact compareBytes_le_trans a b c h1 h2)
      (fun a b => by
        simp only [Bool.or_eq_true, decide_eq_true_eq]
        exact compareBytes_total a b)
      tokens
    exact h.imp (fun hab => by simpa using hab)
  · rename_i hlen
    match tokens with
    | [] => exact List.Pairwise.nil
    | [t] => simp
    | t1 :: t2 :: rest => simp at hlen

theorem sortTokens_perm (tokens : List (List Nat)) : (sortTokens tokens).Perm tokens := by
  unfold sortTokens
  split
  · exact List.mergeSort_perm tokens _
  · exact List.Perm.refl tokens

theorem sorted_tokens_eq_of_perm {l1 l2 : List (List Nat)}
    (hp : l1.Perm l2)
    (h1 : l1.Pairwise (fun a b => compareBytes a b ≤ 0))
    (h2 : l2.Pairwise (fun a b => compareBytes a b ≤ 0)) : l1 = l2 := by
  haveI : IsAntisymm (List Nat) (fun a b => compareBytes a b ≤ 0) :=
    ⟨fun _ _ ha hb => compareBytes_antisymm ha hb⟩
  exact List.eq_of_perm_of_sorted hp h1 h2

/-! ### Inversion lemmas for the strict extraction and the parse pipeline -/

theorem tokensFromArray_ok :
    ∀ (elems : List JsValue) (i : Nat) (toks : List (List Nat)),
      tokensFromArray i elems = .ok toks → elems = toks.map JsValue.bytes := by
  intro elems
  induction elems with
  | nil =>
    intro i toks h
    simp [tokensFromArray] at h
    simp [← h]
  | cons x rest ih =>
    intro i toks h
    cases x <;> simp [tokensFromArray] at h
    rename_i data
    cases hrec : tokensFromArray (i + 1) rest with
    | ok toks0 =>
      rw [hrec] at h
      simp at h
      subst h
      simp [ih (i + 1) toks0 hrec]
    | error e =>
      rw [hrec] at h
      simp at h

theorem tokensFromArray_err :
    ∀ (elems : List JsValue) (i : Nat),
      (∃ x ∈ elems, ∀ b, x ≠ JsValue.bytes b) →
      ∃ e, tokensFromArray i elems = .error e ∧ e.stage = .cbor ∧
        e.code = "token_not_byte_string" := by
  intro elems
  induction elems with
  | nil =>
    intro i h
    simp at h
  | cons x rest ih =>
    intro i h
    rcases h with ⟨w, hw, hnb⟩
    rcases List.mem_cons.mp hw with hwx | hwrest
    · subst hwx
      cases w <;> first
        | exact absurd rfl (hnb _)
        | exact ⟨_, rfl, rfl, rfl⟩
    · cases x with
      | bytes data =>
        rcases ih (i + 1) ⟨w, hwrest, hnb⟩ with ⟨e, he, hs, hc⟩
        refine ⟨e, ?_, hs, hc⟩
        simp [tokensFromArray, he]
      | obj entries => exact ⟨_, rfl, rfl, rfl⟩
      | arr elems2 => exact ⟨_, rfl, rfl, rfl⟩
      | str s => exact ⟨_, rfl, rfl, rfl⟩
      | num n => exact ⟨_, rfl, rfl, rfl⟩
      | bool b => exact ⟨_, rfl, rfl, rfl⟩
      | cid s => exact ⟨_, rfl, rfl, rfl⟩
      | nullV => exact ⟨_, rfl, rfl, rfl⟩
      | undef => exact ⟨_, rfl, rfl, rfl⟩

/-- The incoming diagnostics array only prefixes the result: tokens and the
error outcome do not depend on it. -/
theorem extractTokensStrict_diag_split (v : JsValue) (d : List ContainerDiagnostic) :
    extractTokensStrict v d =
      match extractTokensStrict v [] with
      | .ok (t, d1) => .ok (t, d ++ d1)
      | .error e => .error e := by
  unfold extractTokensStrict
  cases hk : asKeyedMapKeys v with
  | none => simp
  | some keys =>
    dsimp only
    by_cases hcond : keys.length ≠ 1 ∨ keys.head? ≠ some "ctn-v1"
    · simp [hcond]
    · rw [if_neg hcond, if_neg hcond]
      cases hg : asKeyedMapGet v "ctn-v1" with
      | none => simp
      | some gv =>
        cases gv <;> try simp
        rename_i tokensRaw
        by_cases hlen : tokensRaw.length = 0
        · cases ht : tokensFromArray 0 tokensRaw <;> simp [hlen, ht]
        · cases ht : tokensFromArray 0 tokensRaw <;> simp [hlen, ht]

theorem parseDecodedBytes_ok_inv (svc : ContainerServices) (hr : Nat)
    (he : ContainerEncoding) (hc : ContainerCompression) (eb : List Nat)
    (d : List ContainerDiagnostic) (r : ContainerParseResult)
    (h : parseDecodedBytes svc hr he hc eb d = .ok r) :
    (∃ toks d2, extractTokensStrict r.cbor d = .ok (toks, d2) ∧
      r.tokens = sortTokens toks) ∧
    r.header = ⟨hr, he, hc⟩ := by
  unfold parseDecodedBytes at h
  have tail :
      ∀ (pb : List Nat) (hcomp : ContainerCompression),
        (match svc.decodeCbor pb with
          | .error msg =>
              Except.error (⟨s!"Failed to decode CBOR payload: {msg}", .cbor, "cbor_decode_failed"⟩ :
                ContainerParseError)
          | .ok cbor =>
              match extractTokensStrict cbor d with
              | .error e => .error e
              | .ok (tokens, diagnostics) =>
                  .ok ({ header := ⟨hr, he, hcomp⟩
                         payloadBytes := pb
                         cbor := cbor
                         tokens := sortTokens tokens
                         diagnostics := diagnoseCanonicality tokens diagnostics } :
                    ContainerParseResult)) = .ok r →
        (∃ toks d2, extractTokensStrict r.cbor d = .ok (toks, d2) ∧
          r.tokens = sortTokens toks) ∧ r.header = ⟨hr, he, hcomp⟩ := by
    intro pb hcomp htail
    cases hcbor : svc.decodeCbor pb with
    | error msg => rw [hcbor] at htail; simp at htail
    | ok cbor =>
      rw [hcbor] at htail
      dsimp only at htail
      cases hex : extractTokensStrict cbor d with
      | error e => rw [hex] at htail; simp at htail
      | ok p =>
        rcases p with ⟨toks, d2⟩
        rw [hex] at htail
        dsimp only at htail
        injection htail with htail
        subst htail
        exact ⟨⟨toks, d2, hex, rfl⟩, rfl⟩
  cases hc with
  | gzip =>
    cases hz : svc.ungzip eb with
    | error msg =>
      rw [hz] at h
      simp at h
    | ok pb =>
      rw [hz] at h
      dsimp only at h
      exact tail pb .gzip h
  | none =>
    dsimp only at h
    exact tail eb .none h

/-! ### Canonicality diagnostics -/

theorem hasOutOfOrderPair_false_iff :
    ∀ l : List (List Nat),
      hasOutOfOrderPair l = false ↔ l.Chain' (fun a b => compareBytes a b ≤ 0) := by
  intro l
  induction l with
  | nil => simp [hasOutOfOrderPair]
  | cons a rest ih =>
    cases rest with
    | nil => simp [hasOutOfOrderPair]
    | cons b rest2 =>
      have hEq : hasOutOfOrderPair (a :: b :: rest2) =
          (decide (0 < compareBytes a b) || hasOutOfOrderPair (b :: rest2)) := rfl
      rw [List.chain'_cons, ← ih, hEq, Bool.or_eq_false_iff, decide_eq_false_iff_not]
      constructor <;> rintro ⟨h1, h2⟩ <;> exact ⟨by omega, h2⟩

theorem hasOutOfOrderPair_of_not_pairwise {l : List (List Nat)}
    (h : ¬ l.Pairwise (fun a b => compareBytes a b ≤ 0)) :
    hasOutOfOrderPair l = true := by
  by_contra hfalse
  haveI : IsTrans (List Nat) (fun a b => compareBytes a b ≤ 0) :=
    ⟨fun a b c => compareBytes_le_trans a b c⟩
  exact h (List.chain'_iff_pairwise.mp
    ((hasOutOfOrderPair_false_iff l).mp (Bool.eq_false_iff.mpr hfalse)))

theorem duplicateCount_pos {tokens : List (List Nat)} {t : List Nat}
    (h : 2 ≤ tokens.count t) : 0 < duplicateCount tokens := by
  have hself : ∀ s : List Nat, (s == t) = true → (encodeBase64 s .url == encodeBase64 t .url) = true := by
    intro s hs
    rw [beq_iff_eq] at hs
    rw [hs, beq_self_eq_true]
  have hcount : 2 ≤ (tokens.map (fun token => encodeBase64 token .url)).count (encodeBase64 t .url) := by
    calc 2 ≤ tokens.count t := h
    _ = tokens.countP (fun s => s == t) := by rw [List.count_eq_countP]
    _ ≤ tokens.countP (fun s => encodeBase64 s .url == encodeBase64 t .url) :=
        List.countP_mono_left (fun s _ hs => hself s hs)
    _ = (tokens.map (fun token => encodeBase64 token .url)).countP
          (fun k => k == encodeBase64 t .url) := by
        rw [List.countP_map]
        rfl
    _ = (tokens.map (fun token => encodeBase64 token .url)).count (encodeBase64 t .url) := by
        rw [List.count_eq_countP]
  unfold duplicateCount
  have hmem : encodeBase64 t .url ∈ (tokens.map (fun token => encodeBase64 token .url)).dedup :=
    List.mem_dedup.mpr (List.count_pos_iff.mp (by omega))
  have hfil : encodeBase64 t .url ∈
      ((tokens.map (fun token => encodeBase64 token .url)).dedup).filter
        (fun key => decide (1 < (tokens.map (fun token => encodeBase64 token .url)).count key)) := by
    rw [List.mem_filter]
    exact ⟨hmem, by simpa using (by omega : 1 < (tokens.map (fun token => encodeBase64 token .url)).count (encodeBase64 t .url))⟩
  exact List.length_pos.mpr (List.ne_nil_of_mem hfil)

theorem diagnoseCanonicality_mem_dup {tokens : List (List Nat)}
    (d : List ContainerDiagnostic) (hlen : 1 < tokens.length)
    (hdup : 0 < duplicateCount tokens) :
    duplicateTokensDiag (duplicateCount tokens) ∈ diagnoseCanonicality tokens d := by
  unfold diagnoseCanonicality
  rw [if_neg (by omega)]
  dsimp only
  rw [if_pos hdup]
  by_cases hord : hasOutOfOrderPair tokens
  · rw [if_pos hord]
    exact List.mem_append_left _ (List.mem_append_right _ (by simp))
  · rw [if_neg hord]
    exact List.mem_append_right _ (by simp)

theorem diagnoseCanonicality_mem_unsorted {tokens : List (List Nat)}
    (d : List ContainerDiagnostic) (hlen : 1 < tokens.length)
    (hord : hasOutOfOrderPair tokens = true) :
    tokensNotSortedDiag ∈ diagnoseCanonicality tokens d := by
  unfold diagnoseCanonicality
  rw [if_neg (by omega)]
  dsimp only
  by_cases hdup : 0 < duplicateCount tokens
  · rw [if_pos hdup, if_pos hord]
    exact List.mem_append_right _ (by simp)
  · rw [if_neg hdup, if_pos hord]
    exact List.mem_append_right _ (by simp)

/-! ### Claim theorems about the container parser -/

/-- C3: for the strict container shape check (`extractTokensStrict`), a value
with no keyed-map view fails with `cbor_not_map`; a keyed value whose key set
is not exactly the single key `ctn-v1` fails with `invalid_container_map_keys`;
a `ctn-v1` array holding any non-byte-string element fails with
`token_not_byte_string`; extraction succeeds only when every element is a byte
string; and an empty `ctn-v1` array succeeds, appending only the notice-level
`empty_container` diagnostic. -/
theorem C3_strict_container_shape (v : JsValue) (d : List ContainerDiagnostic) :
    (asKeyedMapKeys v = Option.none →
      extractTokensStrict v d =
        .error ⟨"CBOR payload must be a map/object", .cbor, "cbor_not_map"⟩) ∧
    (∀ keys, asKeyedMapKeys v = some keys →
      (keys.length ≠ 1 ∨ keys.head? ≠ some "ctn-v1") →
      ∃ e, extractTokensStrict v d = .error e ∧ e.stage = .cbor ∧
        e.code = "invalid_container_map_keys") ∧
    (∀ elems, v = .obj [("ctn-v1", .arr elems)] →
      (∃ x ∈ elems, ∀ b, x ≠ JsValue.bytes b) →
      ∃ e, extractTokensStrict v d = .error e ∧ e.stage = .cbor ∧
        e.code = "token_not_byte_string") ∧
    (∀ toks d2, extractTokensStrict v d = .ok (toks, d2) →
      ∃ elems, asKeyedMapGet v "ctn-v1" = some (.arr elems) ∧
        elems = toks.map JsValue.bytes) ∧
    (v = .obj [("ctn-v1", .arr [])] →
      extractTokensStrict v d = .ok ([], d ++ [emptyContainerDiag])) ∧
    emptyContainerDiag.level = .notice ∧ emptyContainerDiag.code = "empty_container" := by
  refine ⟨?_, ?_, ?_, ?_, ?_, rfl, rfl⟩
  · intro hk
    unfold extractTokensStrict
    rw [hk]
  · intro keys hk hcond
    unfold extractTokensStrict
    rw [hk]
    dsimp only
    rw [if_pos hcond]
    exact ⟨_, rfl, rfl, rfl⟩
  · intro elems hv hex
    subst hv
    rcases tokensFromArray_err elems 0 hex with ⟨e, he, hs, hc⟩
    refine ⟨e, ?_, hs, hc⟩
    have hkeys : asKeyedMapKeys (JsValue.obj [("ctn-v1", .arr elems)]) = some ["ctn-v1"] := rfl
    have hget : asKeyedMapGet (JsValue.obj [("ctn-v1", .arr elems)]) "ctn-v1" =
        some (.arr elems) := rfl
    unfold extractTokensStrict
    rw [hkeys]
    dsimp only
    rw [if_neg (by simp), hget]
    dsimp only
    rw [he]
  · intro toks d2 h
    unfold extractTokensStrict at h
    cases hk : asKeyedMapKeys v with
    | none => rw [hk] at h; simp at h
    | some keys =>
      rw [hk] at h
      dsimp only at h
      by_cases hcond : keys.length ≠ 1 ∨ keys.head? ≠ some "ctn-v1"
      · rw [if_pos hcond] at h
        simp at h
      · rw [if_neg hcond] at h
        cases hg : asKeyedMapGet v "ctn-v1" with
        | none => rw [hg] at h; simp at h
        | some gv =>
          rw [hg] at h
          cases gv <;> try simp at h
          rename_i tokensRaw
          cases ht : tokensFromArray 0 tokensRaw with
          | error e =>
            rw [ht] at h
            simp at h
          | ok toks0 =>
            rw [ht] at h
            simp only at h
            have htoks : toks0 = toks := by
              by_cases hlen : tokensRaw.length = 0 <;> simp [hlen] at h <;> exact h.1
            exact ⟨tokensRaw, rfl, htoks ▸ tokensFromArray_ok tokensRaw 0 toks0 ht⟩
  · intro hv
    subst hv
    rfl

/-- C3 witness: the strict shape check, evaluated at a non-keyed value, a
wrong key set, a non-byte-string element, a successful extraction and an
empty container. -/
theorem C3_strict_container_shape_witness :
    (extractTokensStrict (JsValue.num 3) [] =
      .error ⟨"CBOR payload must be a map/object", .cbor, "cbor_not_map"⟩) ∧
    (∃ e, extractTokensStrict (JsValue.obj [("ctn-v2", .arr [])]) [] = .error e ∧
      e.stage = .cbor ∧ e.code = "invalid_container_map_keys") ∧
    (∃ e, extractTokensStrict (JsValue.obj [("ctn-v1", .arr [.num 1])]) [] = .error e ∧
      e.stage = .cbor ∧ e.code = "token_not_byte_string") ∧
    (∃ elems, asKeyedMapGet (JsValue.obj [("ctn-v1", .arr [.bytes [9]])]) "ctn-v1" =
      some (.arr elems) ∧ elems = [[9]].map JsValue.bytes) ∧
    (extractTokensStrict (JsValue.obj [("ctn-v1", .arr [])]) [] =
      .ok ([], [] ++ [emptyContainerDiag])) := by
  refine ⟨(C3_strict_container_shape (JsValue.num 3) []).1 rfl,
    (C3_strict_container_shape (JsValue.obj [("ctn-v2", .arr [])]) []).2.1 ["ctn-v2"] rfl
      (by simp),
    (C3_strict_container_shape (JsValue.obj [("ctn-v1", .arr [.num 1])]) []).2.2.1 [.num 1] rfl
      ⟨.num 1, by simp, fun b => by simp⟩,
    (C3_strict_container_shape (JsValue.obj [("ctn-v1", .arr [.bytes [9]])]) []).2.2.2.1
      [[9]] [] ?_,
    (C3_strict_container_shape (JsValue.obj [("ctn-v1", .arr [])]) []).2.2.2.2.1 rfl⟩
  rfl

/-- C4: the tokens returned by a successful `parseDecodedBytes` are in
non-decreasing bytewise order; they are a permutation of the tokens the strict
extraction reads off the decoded CBOR value; and any two successful parses
whose token outputs are permutations of each other return identical token
lists, so the output is determined by the multiset of input tokens. -/
theorem C4_tokens_sorted_permutation_invariant :
    (∀ svc hr he hc eb d r, parseDecodedBytes svc hr he hc eb d = .ok r →
      r.tokens.Pairwise (fun a b => compareBytes a b ≤ 0)) ∧
    (∀ svc hr he hc eb d r toks d2, parseDecodedBytes svc hr he hc eb d = .ok r →
      extractTokensStrict r.cbor [] = .ok (toks, d2) → r.tokens.Perm toks) ∧
    (∀ svc1 hr1 he1 hc1 eb1 d1 r1 svc2 hr2 he2 hc2 eb2 d2 r2,
      parseDecodedBytes svc1 hr1 he1 hc1 eb1 d1 = .ok r1 →
      parseDecodedBytes svc2 hr2 he2 hc2 eb2 d2 = .ok r2 →
      r1.tokens.Perm r2.tokens → r1.tokens = r2.tokens) := by
  refine ⟨?_, ?_, ?_⟩
  · intro svc hr he hc eb d r h
    rcases (parseDecodedBytes_ok_inv svc hr he hc eb d r h).1 with ⟨toks, d2, _, htoks⟩
    rw [htoks]
    exact sortTokens_sorted toks
  · intro svc hr he hc eb d r toks d2 h hex
    rcases (parseDecodedBytes_ok_inv svc hr he hc eb d r h).1 with ⟨toks0, d0, hex0, htoks⟩
    rw [extractTokensStrict_diag_split _ d, hex] at hex0
    simp only at hex0
    injection hex0 with hex0
    injection hex0 with h1 h2
    subst h1
    rw [htoks]
    exact sortTokens_perm _
  · intro svc1 hr1 he1 hc1 eb1 d1 r1 svc2 hr2 he2 hc2 eb2 d2 r2 h1 h2 hperm
    rcases (parseDecodedBytes_ok_inv svc1 hr1 he1 hc1 eb1 d1 r1 h1).1 with ⟨t1, e1, _, ht1⟩
    rcases (parseDecodedBytes_ok_inv svc2 hr2 he2 hc2 eb2 d2 r2 h2).1 with ⟨t2, e2, _, ht2⟩
    refine sorted_tokens_eq_of_perm hperm ?_ ?_
    · rw [ht1]; exact sortTokens_sorted t1
    · rw [ht2]; exact sortTokens_sorted t2

/-- Container services decoding every payload to a one-token container, for
concrete witnesses. -/
def singleTokenServices : ContainerServices :=
  ⟨fun _ _ => .ok [], fun b => .ok b, fun _ => .ok (.obj [("ctn-v1", .arr [.bytes [7]])])⟩

/-- The parse result `singleTokenServices` produces on an empty payload. -/
def singleTokenResult : ContainerParseResult :=
  ⟨⟨0x42, .base64, .none⟩, [], .obj [("ctn-v1", .arr [.bytes [7]])], [[7]], []⟩

/-- C4 witness: a concrete single-token parse, exercising all three parts. -/
theorem C4_tokens_sorted_permutation_invariant_witness :
    singleTokenResult.tokens.Pairwise (fun a b => compareBytes a b ≤ 0) ∧
    singleTokenResult.tokens.Perm [[7]] ∧
    singleTokenResult.tokens = singleTokenResult.tokens := by
  have hparse : parseDecodedBytes singleTokenServices 0x42 .base64 .none [] [] =
      .ok singleTokenResult := rfl
  exact ⟨C4_tokens_sorted_permutation_invariant.1 singleTokenServices 0x42 .base64 .none [] [] _ hparse,
    C4_tokens_sorted_permutation_invariant.2.1 singleTokenServices 0x42 .base64 .none [] [] _
      [[7]] [] hparse rfl,
    C4_tokens_sorted_permutation_invariant.2.2 singleTokenServices 0x42 .base64 .none [] [] _
      singleTokenServices 0x42 .base64 .none [] [] _ hparse hparse (List.Perm.refl _)⟩

/-- C6: payload normalization is tolerant of padding irregularities.  Under a
base64url header every `=` is stripped (the output carries none) and a
notice-level diagnostic is appended exactly when padding was present; under a
standard base64 header the whitespace-stripped payload is extended by fewer
than four `=` characters to the next multiple of four, with the notice-level
`base64_padding_missing` diagnostic appended exactly when the length was
irregular.  Normalization is total: it never fails. -/
theorem C6_padding_tolerance (input : String) (d : List ContainerDiagnostic) :
    ((normalizeEncodedPayload input .url d).1 =
        String.mk ((removeWhitespace input).data.filter (fun c => c ≠ '=')) ∧
      '=' ∉ (normalizeEncodedPayload input .url d).1.data ∧
      ((removeWhitespace input).data.contains '=' = true →
        (normalizeEncodedPayload input .url d).2 = d ++ [base64urlPaddingDiag]) ∧
      ((removeWhitespace input).data.contains '=' = false →
        (normalizeEncodedPayload input .url d).2 = d)) ∧
    ((normalizeEncodedPayload input .standard d).1.length % 4 = 0 ∧
      (normalizeEncodedPayload input .standard d).1 =
        removeWhitespace input ++
          String.mk (List.replicate ((4 - (removeWhitespace input).length % 4) % 4) '=') ∧
      (removeWhitespace input).length ≤ (normalizeEncodedPayload input .standard d).1.length ∧
      (normalizeEncodedPayload input .standard d).1.length < (removeWhitespace input).length + 4 ∧
      ((removeWhitespace input).length % 4 ≠ 0 →
        (normalizeEncodedPayload input .standard d).2 = d ++ [base64PaddingMissingDiag]) ∧
      ((removeWhitespace input).length % 4 = 0 →
        (normalizeEncodedPayload input .standard d).2 = d)) ∧
    base64urlPaddingDiag.level = .notice ∧
    base64urlPaddingDiag.code = "base64url_padding_present" ∧
    base64PaddingMissingDiag.level = .notice ∧
    base64PaddingMissingDiag.code = "base64_padding_missing" := by
  have hlen : ∀ (s : String) (l : List Char), (s ++ String.mk l).length = s.length + l.length := by
    intro s l
    simp [String.length_append]
  refine ⟨⟨rfl, ?_, ?_, ?_⟩, ⟨?_, rfl, ?_, ?_, ?_, ?_⟩, rfl, rfl, rfl, rfl⟩
  · intro hmem
    have : ('=' ∈ (removeWhitespace input).data.filter (fun c => c ≠ '=')) := hmem
    simp at this
  · intro hc
    simp [normalizeEncodedPayload, hc]
    simpa using hc
  · intro hc
    simp [normalizeEncodedPayload, hc]
    simpa using hc
  · show (removeWhitespace input ++
      String.mk (List.replicate ((4 - (removeWhitespace input).length % 4) % 4) '=')).length % 4 = 0
    rw [hlen]
    simp only [List.length_replicate]
    omega
  · show (removeWhitespace input).length ≤ (removeWhitespace input ++
      String.mk (List.replicate ((4 - (removeWhitespace input).length % 4) % 4) '=')).length
    rw [hlen]
    omega
  · show (removeWhitespace input ++
      String.mk (List.replicate ((4 - (removeWhitespace input).length % 4) % 4) '=')).length <
      (removeWhitespace input).length + 4
    rw [hlen]
    simp only [List.length_replicate]
    omega
  · intro hmod
    simp [normalizeEncodedPayload, hmod]
  · intro hmod
    simp [normalizeEncodedPayload, hmod]

/-- C6 witness: concrete url and standard normalizations. -/
theorem C6_padding_tolerance_witness :
    (normalizeEncodedPayload "ab c==" .url []).2 = [] ++ [base64urlPaddingDiag] ∧
    (normalizeEncodedPayload "abcde" .standard []).2 = [] ++ [base64PaddingMissingDiag] ∧
    (normalizeEncodedPayload "AAAA" .standard []).2 = [] := by
  refine ⟨(C6_padding_tolerance "ab c==" []).1.2.2.1 (by decide),
    (C6_padding_tolerance "abcde" []).2.1.2.2.2.2.1 (by decide),
    (C6_padding_tolerance "AAAA" []).2.1.2.2.2.2.2 (by decide)⟩

/-- C7: whenever some byte sequence occurs more than once in the pre-sort
token list, `diagnoseCanonicality` emits the warn-level `duplicate_tokens`
diagnostic carrying the count of duplicated entries; whenever the pre-sort
list is not in non-decreasing bytewise order it emits the warn-level
`tokens_not_sorted` diagnostic; and the container with tokens
`[[1], [2], [1]]` receives both. -/
theorem C7_canonicality_diagnostics :
    (∀ (tokens : List (List Nat)) (d : List ContainerDiagnostic) (t : List Nat),
      2 ≤ tokens.count t →
      0 < duplicateCount tokens ∧
      duplicateTokensDiag (duplicateCount tokens) ∈ diagnoseCanonicality tokens d) ∧
    (∀ (tokens : List (List Nat)) (d : List ContainerDiagnostic),
      ¬ tokens.Pairwise (fun a b => compareBytes a b ≤ 0) →
      tokensNotSortedDiag ∈ diagnoseCanonicality tokens d) ∧
    (duplicateTokensDiag (duplicateCount [[1], [2], [1]]) ∈ diagnoseCanonicality [[1], [2], [1]] [] ∧
      tokensNotSortedDiag ∈ diagnoseCanonicality [[1], [2], [1]] []) ∧
    (∀ n, (duplicateTokensDiag n).level = .warn ∧ (duplicateTokensDiag n).code = "duplicate_tokens") ∧
    tokensNotSortedDiag.level = .warn ∧ tokensNotSortedDiag.code = "tokens_not_sorted" := by
  have hdup : ∀ (tokens : List (List Nat)) (d : List ContainerDiagnostic) (t : List Nat),
      2 ≤ tokens.count t →
      0 < duplicateCount tokens ∧
      duplicateTokensDiag (duplicateCount tokens) ∈ diagnoseCanonicality tokens d := by
    intro tokens d t h
    have hpos := duplicateCount_pos h
    have hcl : tokens.count t ≤ tokens.length := List.count_le_length t tokens
    have hlen : 1 < tokens.length := by omega
    exact ⟨hpos, diagnoseCanonicality_mem_dup d hlen hpos⟩
  have hunsorted : ∀ (tokens : List (List Nat)) (d : List ContainerDiagnostic),
      ¬ tokens.Pairwise (fun a b => compareBytes a b ≤ 0) →
      tokensNotSortedDiag ∈ diagnoseCanonicality tokens d := by
    intro tokens d h
    have hlen : 1 < tokens.length := by
      by_contra hle
      apply h
      match tokens with
      | [] => exact List.Pairwise.nil
      | [a] => simp
      | a :: b :: rest => simp at hle
    exact diagnoseCanonicality_mem_unsorted d hlen (hasOutOfOrderPair_of_not_pairwise h)
  refine ⟨hdup, hunsorted, ⟨?_, ?_⟩, fun n => ⟨rfl, rfl⟩, rfl, rfl⟩
  · exact (hdup [[1], [2], [1]] [] [1] (by decide)).2
  · refine hunsorted [[1], [2], [1]] [] ?_
    intro hp
    have h21 := List.rel_of_pairwise_cons (List.pairwise_cons.mp hp).2 (by simp : [1] ∈ [[1]])
    revert h21
    decide

/-! ### The text entry point -/

theorem headerTable_none_text_none {n : Nat} (h : headerTable n = Option.none) :
    textHeaderTable n = Option.none := by
  unfold textHeaderTable
  split <;> first | rfl | exact absurd h (by decide)

theorem string_eq_empty_of_data_nil {s : String} (h : s.data = []) : s = "" := by
  cases s with
  | mk data => cases h; rfl

/-- C10: an input whose trimmed form is a bare valid text header character
(nothing but whitespace follows the header) is rejected by
`parseUcanContainerText` with stage `decode` and code `empty_payload` — it is
never parsed as an empty container. -/
theorem C10_bare_header_empty_payload (svc : ContainerServices) (input : String)
    (c : Char) (info : TextHeaderInfo)
    (hdata : (jsTrim input).data = [c]) (hth : textHeaderTable c.toNat = some info) :
    parseUcanContainerText svc input =
      .error ⟨"Container payload is empty", .decode, "empty_payload"⟩ := by
  have hne : jsTrim input ≠ "" := by
    intro he
    rw [he] at hdata
    simp at hdata
  simp only [parseUcanContainerText]
  rw [if_neg hne, hdata]
  simp only [List.headD_cons]
  rw [hth]
  dsimp only
  rw [show jsTrim (String.mk (List.drop 1 [c])) = "" from rfl]
  rfl

/-- C10 witness: the bare header `"B"`. -/
theorem C10_bare_header_empty_payload_witness :
    parseUcanContainerText trivialContainerServices "B" =
      .error ⟨"Container payload is empty", .decode, "empty_payload"⟩ :=
  C10_bare_header_empty_payload trivialContainerServices "B" 'B' ⟨.base64, .none, .standard⟩
    (by decide) (by decide)

theorem parseUcanContainerText_ok_inv (svc : ContainerServices) (input : String)
    (r : ContainerParseResult) (h : parseUcanContainerText svc input = .ok r) :
    ∃ c rest info, (jsTrim input).data = c :: rest ∧ textHeaderTable c.toNat = some info ∧
      r.header = ⟨c.toNat, info.encoding, info.compression⟩ := by
  simp only [parseUcanContainerText] at h
  by_cases hemp : jsTrim input = ""
  · rw [if_pos hemp] at h
    exact absurd h (by simp)
  · rw [if_neg hemp] at h
    obtain ⟨c, rest, hdata⟩ : ∃ c rest, (jsTrim input).data = c :: rest := by
      cases hd : (jsTrim input).data with
      | nil => exact absurd (string_eq_empty_of_data_nil hd) hemp
      | cons c rest => exact ⟨c, rest, rfl⟩
    rw [hdata] at h
    simp only [List.headD_cons] at h
    cases hth : textHeaderTable c.toNat with
    | none =>
      rw [hth] at h
      dsimp only at h
      split at h <;> simp at h
    | some info =>
      rw [hth] at h
      dsimp only at h
      by_cases hpay : jsTrim (String.mk (List.drop 1 (c :: rest))) = ""
      · rw [if_pos hpay] at h
        simp at h
      · rw [if_neg hpay] at h
        cases hnorm : normalizeEncodedPayload (jsTrim (String.mk (List.drop 1 (c :: rest))))
            info.variant [] with
        | mk normalized diags =>
          rw [hnorm] at h
          dsimp only at h
          cases hdec : decodeBase64WithContext svc normalized info.variant with
          | error e =>
            rw [hdec] at h
            simp at h
          | ok bytes =>
            rw [hdec] at h
            dsimp only at h
            exact ⟨c, rest, info, hdata, hth,
              (parseDecodedBytes_ok_inv svc c.toNat info.encoding info.compression
                bytes diags r h).2⟩

/-- C2: the text entry point resolves the first (trimmed) character against
the fixed header tables: a raw-bytes header (`@` or `M`) is rejected at stage
`header` with code `raw_bytes_header_in_text`; a character outside the
six-entry table is rejected at stage `header` with code `unknown_header`; and
any successful parse records the text table's encoding/compression pair (and
the header character itself) in the result header. -/
theorem C2_text_header_resolution (svc : ContainerServices) (input : String) :
    (∀ c rest, (jsTrim input).data = c :: rest →
      ((c = '@' ∨ c = 'M') →
        ∃ e, parseUcanContainerText svc input = .error e ∧ e.stage = .header ∧
          e.code = "raw_bytes_header_in_text") ∧
      (headerTable c.toNat = Option.none →
        ∃ e, parseUcanContainerText svc input = .error e ∧ e.stage = .header ∧
          e.code = "unknown_header")) ∧
    (∀ r, parseUcanContainerText svc input = .ok r →
      ∃ c rest info, (jsTrim input).data = c :: rest ∧ textHeaderTable c.toNat = some info ∧
        r.header.raw = c.toNat ∧ r.header.encoding = info.encoding ∧
        r.header.compression = info.compression) := by
  constructor
  · intro c rest hdata
    have hne : jsTrim input ≠ "" := by
      intro he
      rw [he] at hdata
      simp at hdata
    constructor
    · rintro (rfl | rfl) <;>
        · simp only [parseUcanContainerText]
          rw [if_neg hne, hdata]
          simp only [List.headD_cons]
          exact ⟨_, rfl, rfl, rfl⟩
    · intro hnone
      have htext := headerTable_none_text_none hnone
      simp only [parseUcanContainerText]
      rw [if_neg hne, hdata]
      simp only [List.headD_cons]
      rw [htext]
      dsimp only
      rw [if_neg (by simp [hnone])]
      exact ⟨_, rfl, rfl, rfl⟩
  · intro r h
    rcases parseUcanContainerText_ok_inv svc input r h with ⟨c, rest, info, hdata, hth, hhdr⟩
    exact ⟨c, rest, info, hdata, hth, by rw [hhdr], by rw [hhdr], by rw [hhdr]⟩

/-- The result `trivialContainerServices` yields on the input `"B AAAA"`. -/
def emptyContainerTextResult : ContainerParseResult :=
  ⟨⟨0x42, .base64, .none⟩, [], .obj [("ctn-v1", .arr [])], [], [emptyContainerDiag]⟩

/-- C2 witness: the rejections at `"@a"` and `"Za"`, and the header recorded
by the successful parse of `"B AAAA"`. -/
theorem C2_text_header_resolution_witness :
    (∃ e, parseUcanContainerText trivialContainerServices "@a" = .error e ∧
      e.stage = .header ∧ e.code = "raw_bytes_header_in_text") ∧
    (∃ e, parseUcanContainerText trivialContainerServices "Za" = .error e ∧
      e.stage = .header ∧ e.code = "unknown_header") ∧
    (∃ c rest info, (jsTrim "B AAAA").data = c :: rest ∧ textHeaderTable c.toNat = some info ∧
      emptyContainerTextResult.header.raw = c.toNat ∧
      emptyContainerTextResult.header.encoding = info.encoding ∧
      emptyContainerTextResult.header.compression = info.compression) :=
  ⟨((C2_text_header_resolution trivialContainerServices "@a").1 '@' ['a'] (by decide)).1
      (Or.inl rfl),
    ((C2_text_header_resolution trivialContainerServices "Za").1 'Z' ['a'] (by decide)).2
      (by decide),
    (C2_text_header_resolution trivialContainerServices "B AAAA").2 emptyContainerTextResult rfl⟩

/-! ### Token analysis (`ucanAnalysis.ts`) -/

/-- Token freshness states derived from exp/nbf. -/
inductive TimelineState where
  | valid
  | expired
  | pending
  | none
deriving DecidableEq, Repr

/-- Token freshness timeline derived from exp/nbf. -/
structure TokenTimeline where
  expLabel : String
  expRelative : String
  nbfLabel : String
  nbfRelative : String
  state : TimelineState
deriving DecidableEq, Repr

/-- Severity level for analysis issues. -/
inductive IssueLevel where
  | notice
  | warn
  | error
deriving DecidableEq, Repr

/-- An issue discovered during decoding / analysis. -/
structure Issue where
  level : IssueLevel
  code : String
  message : String
deriving DecidableEq, Repr

/-- Signature verification status, with `skipped` for unattempted checks. -/
inductive SignatureStatus where
  | verified
  | failed
  | unsupported
  | skipped
deriving DecidableEq, Repr

/-- Signature verification insight attached to a token analysis. -/
structure SignatureInsight where
  status : SignatureStatus
  reason : Option String
deriving DecidableEq, Repr

/-- The delegation payload fields read off a decoded envelope. -/
structure DelegationPayload where
  iss : String
  aud : String
  sub : Option String
  cmd : String
  pol : JsValue
  exp : Option Int
  nbf : Option Int
  nonce : List Nat
  meta : Option JsValue

/-- The invocation payload fields read off a decoded envelope; proof and
cause references are carried in their string (CID `toString`) form. -/
structure InvocationPayload where
  iss : String
  aud : Option String
  sub : String
  cmd : String
  args : Option JsValue
  prf : List String
  cause : Option String
  exp : Option Int
  nbf : Option Int
  iat : Option Int
  meta : Option JsValue
  nonce : List Nat

/-- The payload of a decoded envelope, tagged by kind. -/
inductive EnvelopePayload where
  | dlg (p : DelegationPayload)
  | inv (p : InvocationPayload)

/-- A decoded envelope as returned by the external `iso-ucan` codec. -/
structure Envelope where
  spec : String
  version : String
  alg : String
  enc : String
  signature : List Nat
  payload : EnvelopePayload

/-- The unchecked `envelope.payload as DelegationPayload` cast of the source:
on a mismatched payload the shared fields are read across and the missing
ones read as JavaScript `undefined` defaults.  A real decoder never produces
an envelope whose payload kind disagrees with its `spec` tag. -/
def EnvelopePayload.asDlg : EnvelopePayload → DelegationPayload
  | .dlg p => p
  | .inv q =>
      ⟨q.iss, q.aud.getD "", some q.sub, q.cmd, .undef, q.exp, q.nbf, q.nonce, q.meta⟩

/-- The unchecked `envelope.payload as InvocationPayload` cast, mirroring
`EnvelopePayload.asDlg`. -/
def EnvelopePayload.asInv : EnvelopePayload → InvocationPayload
  | .inv p => p
  | .dlg q =>
      ⟨q.iss, some q.aud, q.sub.getD "", q.cmd, Option.none, [], Option.none,
        q.exp, q.nbf, Option.none, q.meta, q.nonce⟩

/-- Minimal, UI-friendly view of a delegation payload; fields in the source
construction order. -/
structure DelegationSummary where
  iss : String
  aud : String
  sub : Option String
  cmd : String
  pol : JsValue
  exp : Option Int
  nbf : Option Int
  meta : Option JsValue
  nonce : String

/-- Minimal, UI-friendly view of an invocation payload; fields in the source
construction order. -/
structure InvocationSummary where
  iss : String
  aud : Option String
  sub : String
  cmd : String
  args : JsValue
  proofs : List String
  exp : Option Int
  nbf : Option Int
  iat : Option Int
  meta : Option JsValue
  cause : Option String
  nonce : String

/-- The payload of the export-friendly delegation JSON shape. -/
structure DelegationJSONPayload where
  iss : String
  aud : String
  sub : Option String
  cmd : String
  pol : JsValue
  exp : Option Int
  nbf : Option Int
  nonce : String
  meta : Option JsValue

/-- The envelope of the export-friendly delegation JSON shape. -/
structure DelegationJSONEnvelope where
  payload : DelegationJSONPayload
  signature : String
  alg : String
  enc : String
  spec : String
  version : String

/-- JSON view of a delegation token suitable for export. -/
structure DelegationJSON where
  token : String
  cid : String
  envelope : DelegationJSONEnvelope

/-- The payload of the export-friendly invocation JSON shape
(`{...payloadRest, nonce, prf, cause}`). -/
structure InvocationJSONPayload where
  iss : String
  aud : Option String
  sub : String
  cmd : String
  args : Option JsValue
  exp : Option Int
  nbf : Option Int
  iat : Option Int
  meta : Option JsValue
  nonce : String
  prf : List String
  cause : Option String

/-- The envelope of the export-friendly invocation JSON shape. -/
structure InvocationJSONEnvelope where
  payload : InvocationJSONPayload
  signature : String
  alg : String
  enc : String
  spec : String
  version : String

/-- JSON view of an invocation token suitable for export. -/
structure InvocationJSON where
  cid : String
  envelope : InvocationJSONEnvelope

/-- The envelope header subview shared by both token views. -/
structure TokenHeaderView where
  algorithm : String
  encoding : String
  version : String
  spec : String

/-- Fully decoded delegation token view. -/
structure DelegationView where
  cid : String
  header : TokenHeaderView
  payload : DelegationSummary
  timeline : TokenTimeline
  json : DelegationJSON

/-- Fully decoded invocation token view. -/
structure InvocationView where
  cid : String
  header : TokenHeaderView
  payload : InvocationSummary
  timeline : TokenTimeline
  json : InvocationJSON

/-- The three-way tagged union of token views (`delegation`, `invocation`,
`unknown`). -/
inductive TokenView where
  | delegation (view : DelegationView)
  | invocation (view : InvocationView)
  | unknown (reason : String)

/-- A token analysis: the shared metadata (`id`, `index`, `bytes`, `issues`,
`signature`) plus the tagged view. -/
structure TokenAnalysis where
  id : String
  index : Nat
  tokenBase64 : String
  bytes : List Nat
  issues : List Issue
  signature : SignatureInsight
  view : TokenView

/-- The discriminant string of the tagged union. -/
def TokenAnalysis.type (t : TokenAnalysis) : String :=
  match t.view with
  | .delegation _ => "delegation"
  | .invocation _ => "invocation"
  | .unknown _ => "unknown"

/-- External services the token analyser delegates to: the envelope codec
(`iso-ucan/envelope` decode, which throws on malformed input), the two
signature verifiers, CID computation, the clock (`nowUnixSeconds`) and the
timestamp/relative-time formatters of `utils/format.ts`. -/
structure AnalysisServices where
  decodeEnvelope : List Nat → Except String Envelope
  verifyDelegationSignature : List Nat → SignatureInsight
  verifyInvocationSignature : Envelope → SignatureInsight
  computeCid : Envelope → String
  nowSeconds : Int
  fmtLabel : Option Int → String
  relLabel : Option Int → String

/-- `buildTimeline` from `ucanAnalysis.ts`: evaluate `exp` first (unset →
`none`, past → `expired`, else `valid`), then let a future `nbf`
unconditionally force the state to `pending`. -/
def buildTimeline (svc : AnalysisServices) (exp : Option Int) (nbf : Option Int) :
    TokenTimeline :=
  let nowSeconds := svc.nowSeconds
  let state1 : TimelineState :=
    match exp with
    | some e => if e < nowSeconds then .expired else .valid
    | Option.none => .none
  let state : TimelineState :=
    match nbf with
    | some n => if n > nowSeconds then .pending else state1
    | Option.none => state1
  { expLabel := svc.fmtLabel exp
    expRelative := svc.relLabel exp
    nbfLabel := svc.fmtLabel nbf
    nbfRelative := svc.relLabel nbf
    state := state }

/-- `decodeEnvelopeSafe`: wrap the throwing envelope codec; note missing
version/spec header fields with a notice-level issue, and turn a decode
failure into a warn-level `envelope_decode_failed` issue. -/
def decodeEnvelopeSafe (svc : AnalysisServices) (bytes : List Nat) :
    Except (List Issue) (Envelope × List Issue) :=
  match svc.decodeEnvelope bytes with
  | .ok envelope =>
      let issues : List Issue :=
        if envelope.version = "" ∨ envelope.spec = "" then
          [⟨.notice, "missing_header_fields", "Envelope header is missing version/spec fields."⟩]
        else []
      .ok (envelope, issues)
  | .error msg => .error [⟨.warn, "envelope_decode_failed", msg⟩]

/-- `analyseDelegationEnvelope`: signature verification, timeline, CID and
the summary/export views for a delegation envelope. -/
def analyseDelegationEnvelope (svc : AnalysisServices) (envelope : Envelope)
    (bytes : List Nat) (base64 : String) (id : String) (index : Nat)
    (initialIssues : List Issue) : TokenAnalysis :=
  let payload := envelope.payload.asDlg
  let nonce := payload.nonce
  let signature := svc.verifyDelegationSignature bytes
  let issues := initialIssues ++
    (if signature.status = .failed then
      [⟨.warn, "signature_invalid", signature.reason.getD "Signature verification failed"⟩]
    else [])
  let timeline := buildTimeline svc payload.exp payload.nbf
  let cid := svc.computeCid envelope
  let json : DelegationJSON :=
    ⟨base64, cid,
      ⟨⟨payload.iss, payload.aud, payload.sub, payload.cmd, payload.pol, payload.exp,
        payload.nbf, encodeBase64 nonce .standard, payload.meta⟩,
       encodeBase64 envelope.signature .standard, envelope.alg, envelope.enc,
       envelope.spec, envelope.version⟩⟩
  { id := id
    index := index
    tokenBase64 := base64
    bytes := bytes
    issues := issues
    signature := signature
    view := .delegation
      ⟨cid, ⟨envelope.alg, envelope.enc, envelope.version, envelope.spec⟩,
        ⟨payload.iss, payload.aud, payload.sub, payload.cmd, payload.pol, payload.exp,
          payload.nbf, payload.meta, encodeBase64 nonce .standard⟩,
        timeline, json⟩ }

/-- `analyseInvocationEnvelope`: signature verification, timeline, CID and
the summary/export views for an invocation envelope. -/
def analyseInvocationEnvelope (svc : AnalysisServices) (envelope : Envelope)
    (bytes : List Nat) (base64 : String) (id : String) (index : Nat)
    (initialIssues : List Issue) : TokenAnalysis :=
  let signature := svc.verifyInvocationSignature envelope
  let issues := initialIssues ++
    (if signature.status = .failed then
      [⟨.warn, "signature_invalid", signature.reason.getD "Signature verification failed"⟩]
    else [])
  let payload := envelope.payload.asInv
  let nonce := payload.nonce
  let proofs := payload.prf
  let cause := payload.cause
  let timeline := buildTimeline svc payload.exp payload.nbf
  let invocationCid := svc.computeCid envelope
  let json : InvocationJSON :=
    ⟨invocationCid,
      ⟨⟨payload.iss, payload.aud, payload.sub, payload.cmd, payload.args, payload.exp,
        payload.nbf, payload.iat, payload.meta, encodeBase64 nonce .standard, proofs, cause⟩,
       encodeBase64 envelope.signature .standard, envelope.alg, envelope.enc,
       envelope.spec, envelope.version⟩⟩
  { id := id
    index := index
    tokenBase64 := base64
    bytes := bytes
    issues := issues
    signature := signature
    view := .invocation
      ⟨invocationCid, ⟨envelope.alg, envelope.enc, envelope.version, envelope.spec⟩,
        ⟨payload.iss, payload.aud, payload.sub, payload.cmd, (payload.args).getD (.obj []),
          proofs, payload.exp, payload.nbf, payload.iat, payload.meta, cause,
          encodeBase64 nonce .standard⟩,
        timeline, json⟩ }

/-- `analyseBytes`: decode the envelope safely; on failure resolve to an
`unknown` analysis carrying the decode issues with signature `skipped`;
otherwise dispatch on the `spec` tag, falling back to `unknown` with an
`unsupported_payload_spec` issue. -/
def analyseBytes (svc : AnalysisServices) (bytes : List Nat) (index : Nat) : TokenAnalysis :=
  let base64 := encodeBase64 bytes .standard
  let id := s!"token-{index}"
  match decodeEnvelopeSafe svc bytes with
  | .error issues =>
      let reason := ((issues.head?).map Issue.message).getD "Token could not be decoded"
      { id := id
        index := index
        tokenBase64 := base64
        bytes := bytes
        issues := issues
        signature := ⟨.skipped, some reason⟩
        view := .unknown reason }
  | .ok (envelope, initialIssues) =>
      if envelope.spec = "dlg" then
        analyseDelegationEnvelope svc envelope bytes base64 id index initialIssues
      else if envelope.spec = "inv" then
        analyseInvocationEnvelope svc envelope bytes base64 id index initialIssues
      else
        let tag := envelope.spec
        let reason := s!"Unsupported payload spec: {tag}"
        { id := id
          index := index
          tokenBase64 := base64
          bytes := bytes
          issues := initialIssues ++ [⟨.warn, "unsupported_payload_spec", reason⟩]
          signature := ⟨.skipped, some reason⟩
          view := .unknown reason }

/-- Analysis services with a fixed clock at 50 and an always-failing envelope
decoder, for concrete instantiations. -/
def sampleClockServices : AnalysisServices :=
  ⟨fun _ => .error "Unable to decode envelope", fun _ => ⟨.skipped, Option.none⟩,
    fun _ => ⟨.skipped, Option.none⟩, fun _ => "", 50, fun _ => "", fun _ => ""⟩

/-! ### Claim theorems about the token analyser -/

/-- C1 counterexample: at analysis-time clock 50, a token with `exp = 0`
(long expired) and `nbf = 100` (not yet valid) is reported `pending`, not
`expired` — the future-`nbf` check overrides the already-computed `expired`
state, contradicting the claimed precedence of `expired`. -/
theorem C1_counterexample :
    (buildTimeline sampleClockServices (some 0) (some 100)).state = TimelineState.pending ∧
    TimelineState.pending ≠ TimelineState.expired :=
  ⟨rfl, by decide⟩

/-- C1 (amended): for a token with `exp` and `nbf` both set, the timeline
state is computed by evaluating `exp` first (`expired`/`valid`), and then a
future `nbf` forces the state to `pending` unconditionally — `pending`
overrides even an `expired` result, so an expired-but-not-yet-valid token is
reported `pending`. -/
theorem C1_timeline_pending_overrides_expired (svc : AnalysisServices) (exp nbf : Int) :
    (buildTimeline svc (some exp) (some nbf)).state =
      if nbf > svc.nowSeconds then TimelineState.pending
      else if exp < svc.nowSeconds then TimelineState.expired
      else TimelineState.valid := by
  unfold buildTimeline
  by_cases h1 : nbf > svc.nowSeconds
  · simp [h1]
  · by_cases h2 : exp < svc.nowSeconds
    · simp [h1, h2]
    · simp [h1, h2]

/-- C5: `analyseBytes` is total — every result carries one of the three type
tags — and when the envelope decoder fails the result is an `unknown`
analysis whose issues contain a warn-level `envelope_decode_failed` issue and
whose signature status is `skipped`. -/
theorem C5_analyse_never_throws (svc : AnalysisServices) (bytes : List Nat) (index : Nat) :
    ((analyseBytes svc bytes index).type = "delegation" ∨
      (analyseBytes svc bytes index).type = "invocation" ∨
      (analyseBytes svc bytes index).type = "unknown") ∧
    (∀ msg, svc.decodeEnvelope bytes = .error msg →
      (analyseBytes svc bytes index).type = "unknown" ∧
      (∃ i ∈ (analyseBytes svc bytes index).issues,
        i.code = "envelope_decode_failed" ∧ i.level = .warn) ∧
      (analyseBytes svc bytes index).signature.status = .skipped) := by
  constructor
  · cases hv : (analyseBytes svc bytes index).view with
    | delegation v => exact Or.inl (by simp [TokenAnalysis.type, hv])
    | invocation v => exact Or.inr (Or.inl (by simp [TokenAnalysis.type, hv]))
    | unknown r => exact Or.inr (Or.inr (by simp [TokenAnalysis.type, hv]))
  · intro msg hdec
    have hsafe : decodeEnvelopeSafe svc bytes =
        .error [⟨.warn, "envelope_decode_failed", msg⟩] := by
      unfold decodeEnvelopeSafe
      rw [hdec]
    have hres : analyseBytes svc bytes index =
        { id := s!"token-{index}"
          index := index
          tokenBase64 := encodeBase64 bytes .standard
          bytes := bytes
          issues := [⟨.warn, "envelope_decode_failed", msg⟩]
          signature := ⟨.skipped, some msg⟩
          view := .unknown msg } := by
      unfold analyseBytes
      rw [hsafe]
      rfl
    rw [hres]
    exact ⟨rfl, ⟨⟨.warn, "envelope_decode_failed", msg⟩, by simp, rfl, rfl⟩, rfl⟩

/-- C5 witness: the spec's own example — analysing the bytes `[1, 2, 3, 4]`
under a decoder that rejects them. -/
theorem C5_analyse_never_throws_witness :
    ((analyseBytes sampleClockServices [1, 2, 3, 4] 0).type = "delegation" ∨
      (analyseBytes sampleClockServices [1, 2, 3, 4] 0).type = "invocation" ∨
      (analyseBytes sampleClockServices [1, 2, 3, 4] 0).type = "unknown") ∧
    ((analyseBytes sampleClockServices [1, 2, 3, 4] 0).type = "unknown" ∧
      (∃ i ∈ (analyseBytes sampleClockServices [1, 2, 3, 4] 0).issues,
        i.code = "envelope_decode_failed" ∧ i.level = .warn) ∧
      (analyseBytes sampleClockServices [1, 2, 3, 4] 0).signature.status = .skipped) :=
  ⟨(C5_analyse_never_throws sampleClockServices [1, 2, 3, 4] 0).1,
    (C5_analyse_never_throws sampleClockServices [1, 2, 3, 4] 0).2
      "Unable to decode envelope" rfl⟩

/-! ### Export serialization (`ucanAnalysis.ts`, report export path) -/

/-- The spec-derived delegation payload key order. -/
def delegationPayloadKeyOrder : List String :=
  ["iss", "aud", "sub", "cmd", "pol", "nonce", "meta", "nbf", "exp"]

/-- The spec-derived invocation export payload key order. -/
def invocationPayloadKeyOrder : List String :=
  ["iss", "sub", "aud", "cmd", "args", "prf", "meta", "nonce", "exp", "iat", "cause"]

/-- The spec-derived invocation summary key order. -/
def invocationSummaryKeyOrder : List String :=
  ["iss", "sub", "aud", "cmd", "args", "proofs", "meta", "nonce", "nbf", "exp", "iat", "cause"]

/-- `Object.keys(record)`. -/
def recordKeys (entries : List (String × JsValue)) : List String :=
  entries.map Prod.fst

/-- The `hasKeys` helper of `getSpecKeyOrder`: every listed key is present. -/
def hasKeys (entries : List (String × JsValue)) (keys : List String) : Bool :=
  keys.all (fun key => (recordKeys entries).contains key)

/-- `getSpecKeyOrder`: detect which spec template the record matches. -/
def getSpecKeyOrder (entries : List (String × JsValue)) : Option (List String) :=
  if hasKeys entries ["iss", "aud", "sub", "cmd", "pol", "nonce", "exp"] then
    some delegationPayloadKeyOrder
  else if hasKeys entries ["iss", "sub", "cmd", "args", "prf", "nonce", "exp"] then
    some invocationPayloadKeyOrder
  else if hasKeys entries ["iss", "sub", "cmd", "args", "proofs", "nonce", "exp"] then
    some invocationSummaryKeyOrder
  else Option.none

/-- `keys.sort((a, b) => a.localeCompare(b))`, modelled as code-point order. -/
def sortStringsLex (keys : List String) : List String :=
  keys.mergeSort (fun a b => decide (a ≤ b))

/-- The template loop of `getPreferredKeyOrder`: walk the spec order, moving
each present key from the `Set` into the ordered prefix; returns the ordered
prefix and the remaining present keys. -/
def pickOrderedKeys : List String → List String → List String × List String
  | [], present => ([], present)
  | key :: rest, present =>
      if present.contains key then
        let picked := pickOrderedKeys rest (present.erase key)
        (key :: picked.1, picked.2)
      else pickOrderedKeys rest present

/-- `getPreferredKeyOrder`: spec-template order with present keys first, the
remaining keys appended in ascending lexical order; full lexical order when
no template matches.  The JavaScript `Set` of keys is modelled by `dedup`. -/
def getPreferredKeyOrder (entries : List (String × JsValue)) : List String :=
  match getSpecKeyOrder entries with
  | Option.none => sortStringsLex (recordKeys entries)
  | some specOrder =>
      let present := (recordKeys entries).dedup
      let picked := pickOrderedKeys specOrder present
      picked.1 ++ sortStringsLex picked.2

/-- `record[key]` lookups for an ordered key list, pairing each key with its
first-found entry. -/
def pickEntries (keys : List String) (entries : List (String × JsValue)) :
    List (String × JsValue) :=
  keys.filterMap (fun key => entries.find? (fun e => e.1 == key))

/-- Is this value the JavaScript `undefined`? -/
def JsValue.isUndef : JsValue → Bool
  | .undef => true
  | _ => false

/-- CID handling mode of the export normalization. -/
inductive CidSerialization where
  | keep
  | string
deriving DecidableEq, Repr

theorem mem_pickEntries {x : String × JsValue} {keys : List String}
    {entries : List (String × JsValue)} (h : x ∈ pickEntries keys entries) : x ∈ entries := by
  unfold pickEntries at h
  rcases List.mem_filterMap.mp h with ⟨k, _, hf⟩
  exact List.mem_of_find?_eq_some hf

/-- `normalizeForExportSerialization`: rebuild the value with every object's
keys in preferred order, optionally dropping `undefined` properties and
optionally rendering CID values as strings; applied recursively. -/
def normalizeForExportSerialization (value : JsValue) (omitUndefinedProperties : Bool)
    (cidSerialization : CidSerialization) : JsValue :=
  match value with
  | .nullV => .nullV
  | .undef => .undef
  | .bytes b => .bytes b
  | .str s => .str s
  | .num n => .num n
  | .bool b => .bool b
  | .cid s =>
      (match cidSerialization with
        | .string => .str s
        | .keep => .cid s)
  | .arr elems =>
      .arr (elems.attach.map
        (fun ⟨v, hv⟩ => normalizeForExportSerialization v omitUndefinedProperties cidSerialization))
  | .obj entries =>
      let keys := getPreferredKeyOrder entries
      .obj ((pickEntries keys entries).attach.filterMap
        (fun ⟨⟨k, v⟩, hv⟩ =>
          if omitUndefinedProperties && v.isUndef then Option.none
          else
            some (k, normalizeForExportSerialization v omitUndefinedProperties cidSerialization)))
termination_by sizeOf value
decreasing_by
  · simp_wf
    have h1 := List.sizeOf_lt_of_mem hv
    omega
  · simp_wf
    have h1 := List.sizeOf_lt_of_mem (mem_pickEntries hv)
    simp [Prod.mk.sizeOf_spec] at h1
    omega

/-- `JSON.stringify` with `reportJsonReplacer`, at tree level: byte values are
rendered as standard base64 strings, object properties with `undefined`
values are dropped, and `undefined` array elements render as `null`. -/
def reportJsonReplacerDeep (value : JsValue) : JsValue :=
  match value with
  | .obj entries =>
      .obj (entries.attach.filterMap
        (fun ⟨⟨k, v⟩, hv⟩ =>
          if v.isUndef then Option.none else some (k, reportJsonReplacerDeep v)))
  | .arr elems =>
      .arr (elems.attach.map
        (fun ⟨v, hv⟩ => if v.isUndef then .nullV else reportJsonReplacerDeep v))
  | .bytes b => .str (encodeBase64 b .standard)
  | v => v
termination_by sizeOf value
decreasing_by
  · simp_wf
    have h1 := List.sizeOf_lt_of_mem hv
    simp [Prod.mk.sizeOf_spec] at h1
    omega
  · simp_wf
    have h1 := List.sizeOf_lt_of_mem hv
    omega

/-- Does any object node of the tree carry the given key? -/
def containsKey (value : JsValue) (key : String) : Bool :=
  match value with
  | .obj entries =>
      entries.attach.any (fun ⟨⟨k, v⟩, hv⟩ => k == key || containsKey v key)
  | .arr elems => elems.attach.any (fun ⟨v, hv⟩ => containsKey v key)
  | _ => false
termination_by sizeOf value
decreasing_by
  · simp_wf
    have h1 := List.sizeOf_lt_of_mem hv
    simp [Prod.mk.sizeOf_spec] at h1
    omega
  · simp_wf
    have h1 := List.sizeOf_lt_of_mem hv
    omega

/-- Is the tree plain-JSON ready: no raw byte value, no CID value and no
`undefined` anywhere? -/
def jsonReady (value : JsValue) : Bool :=
  match value with
  | .obj entries => entries.attach.all (fun ⟨⟨k, v⟩, hv⟩ => jsonReady v)
  | .arr elems => elems.attach.all (fun ⟨v, hv⟩ => jsonReady v)
  | .bytes _ => false
  | .cid _ => false
  | .undef => false
  | _ => true
termination_by sizeOf value
decreasing_by
  · simp_wf
    have h1 := List.sizeOf_lt_of_mem hv
    simp [Prod.mk.sizeOf_spec] at h1
    omega
  · simp_wf
    have h1 := List.sizeOf_lt_of_mem hv
    omega

/-- Does the tree contain no CID value? -/
def hasNoCid (value : JsValue) : Bool :=
  match value with
  | .obj entries => entries.attach.all (fun ⟨⟨k, v⟩, hv⟩ => hasNoCid v)
  | .arr elems => elems.attach.all (fun ⟨v, hv⟩ => hasNoCid v)
  | .cid _ => false
  | _ => true
termination_by sizeOf value
decreasing_by
  · simp_wf
    have h1 := List.sizeOf_lt_of_mem hv
    simp [Prod.mk.sizeOf_spec] at h1
    omega
  · simp_wf
    have h1 := List.sizeOf_lt_of_mem hv
    omega

/-- External services of the export path: `CID.parse` success (for
`safeCidParse`) and base64 decoding (for
`decodeStandardBase64ToBytesOrNull`). -/
structure ExportServices where
  cidParseOk : String → Bool
  decodeBase64 : String → Except String (List Nat)

/-- `safeCidParse`: a parseable CID string becomes a CID value, anything else
stays a plain string. -/
def safeCidParse (svc : ExportServices) (value : String) : JsValue :=
  if svc.cidParseOk value then .cid value else .str value

/-- `safeCidParseAll`. -/
def safeCidParseAll (svc : ExportServices) (values : List String) : List JsValue :=
  values.map (safeCidParse svc)

/-- `decodeStandardBase64ToBytesOrNull`. -/
def decodeStandardBase64ToBytesOrNull (svc : ExportServices) (value : String) :
    Option (List Nat) :=
  (svc.decodeBase64 value).toOption

/-- A present-or-`undefined` optional string field. -/
def optStr : Option String → JsValue
  | Option.none => .undef
  | some s => .str s

/-- A string-or-`null` field (TypeScript `string | null`). -/
def optStrNull : Option String → JsValue
  | some s => .str s
  | Option.none => .nullV

/-- A present-or-`undefined` optional number field. -/
def optInt : Option Int → JsValue
  | Option.none => .undef
  | some n => .num n

/-- A number-or-`null` field (TypeScript `number | null`). -/
def optIntNull : Option Int → JsValue
  | some n => .num n
  | Option.none => .nullV

/-- A present-or-`undefined` optional object field. -/
def optJs : Option JsValue → JsValue
  | Option.none => .undef
  | some v => v

/-- An `IssueLevel` as its JavaScript string. -/
def IssueLevel.toStr : IssueLevel → String
  | .notice => "notice"
  | .warn => "warn"
  | .error => "error"

/-- An `Issue` record as a JavaScript object. -/
def Issue.toJs (i : Issue) : JsValue :=
  .obj [("level", .str i.level.toStr), ("code", .str i.code), ("message", .str i.message)]

/-- A `SignatureStatus` as its JavaScript string. -/
def SignatureStatus.toStr : SignatureStatus → String
  | .verified => "verified"
  | .failed => "failed"
  | .unsupported => "unsupported"
  | .skipped => "skipped"

/-- A `SignatureInsight` record as a JavaScript object. -/
def SignatureInsight.toJs (s : SignatureInsight) : JsValue :=
  .obj [("status", .str s.status.toStr), ("reason", optStr s.reason)]

/-- A `TimelineState` as its JavaScript string. -/
def TimelineState.toStr : TimelineState → String
  | .valid => "valid"
  | .expired => "expired"
  | .pending => "pending"
  | .none => "none"

/-- A `TokenTimeline` record as a JavaScript object. -/
def TokenTimeline.toJs (t : TokenTimeline) : JsValue :=
  .obj [("expLabel", .str t.expLabel), ("expRelative", .str t.expRelative),
    ("nbfLabel", .str t.nbfLabel), ("nbfRelative", .str t.nbfRelative),
    ("state", .str t.state.toStr)]

/-- A `TokenHeaderView` record as a JavaScript object. -/
def TokenHeaderView.toJs (h : TokenHeaderView) : JsValue :=
  .obj [("algorithm", .str h.algorithm), ("encoding", .str h.encoding),
    ("version", .str h.version), ("spec", .str h.spec)]

/-- The delegation summary as a JavaScript object, keys in the source
construction order. -/
def delegationSummaryEntries (p : DelegationSummary) : List (String × JsValue) :=
  [("iss", .str p.iss), ("aud", .str p.aud), ("sub", optStrNull p.sub), ("cmd", .str p.cmd),
    ("pol", p.pol), ("exp", optIntNull p.exp), ("nbf", optInt p.nbf), ("meta", optJs p.meta),
    ("nonce", .str p.nonce)]

/-- The invocation summary as a JavaScript object, keys in the source
construction order. -/
def invocationSummaryEntries (p : InvocationSummary) : List (String × JsValue) :=
  [("iss", .str p.iss), ("aud", optStr p.aud), ("sub", .str p.sub), ("cmd", .str p.cmd),
    ("args", p.args), ("proofs", .arr (p.proofs.map JsValue.str)), ("exp", optIntNull p.exp),
    ("nbf", optInt p.nbf), ("iat", optInt p.iat), ("meta", optJs p.meta),
    ("cause", optStr p.cause), ("nonce", .str p.nonce)]

/-- The delegation export-JSON payload as a JavaScript object. -/
def delegationJSONPayloadEntries (p : DelegationJSONPayload) : List (String × JsValue) :=
  [("iss", .str p.iss), ("aud", .str p.aud), ("sub", optStrNull p.sub), ("cmd", .str p.cmd),
    ("pol", p.pol), ("exp", optIntNull p.exp), ("nbf", optInt p.nbf), ("nonce", .str p.nonce),
    ("meta", optJs p.meta)]

/-- The invocation export-JSON payload as a JavaScript object
(`{...payloadRest, nonce, prf, cause}`). -/
def invocationJSONPayloadEntries (p : InvocationJSONPayload) : List (String × JsValue) :=
  [("iss", .str p.iss), ("aud", optStr p.aud), ("sub", .str p.sub), ("cmd", .str p.cmd),
    ("args", optJs p.args), ("exp", optIntNull p.exp), ("nbf", optInt p.nbf),
    ("iat", optInt p.iat), ("meta", optJs p.meta), ("nonce", .str p.nonce),
    ("prf", .arr (p.prf.map JsValue.str)), ("cause", optStr p.cause)]

/-- The export-JSON envelope as a JavaScript object with its `payload` and
`signature` values overridden, mirroring the source spread
`{...envelope, payload, ...(signature override)}` which replaces both values
in place. -/
def jsonEnvelopeEntriesWith (payload : JsValue) (signature : JsValue)
    (alg enc spec version : String) : List (String × JsValue) :=
  [("payload", payload), ("signature", signature), ("alg", .str alg), ("enc", .str enc),
    ("spec", .str spec), ("version", .str version)]

/-- Replace the value stored at an existing key, keeping its position —
JavaScript object spread override / property assignment. -/
def setKey (entries : List (String × JsValue)) (key : String) (value : JsValue) :
    List (String × JsValue) :=
  entries.map (fun e => if e.1 == key then (e.1, value) else e)

/-- `buildTokenExportModel`: the format-agnostic export model of one token
analysis; nonce/signature strings are re-decoded to raw bytes where possible
and proof/cause strings re-parsed to CID values, raw token bytes are included
only on request. -/
def buildTokenExportModel (svc : ExportServices) (token : TokenAnalysis)
    (includeRawBytes : Bool) : JsValue :=
  let base : List (String × JsValue) :=
    [("id", .str token.id), ("index", .num token.index), ("type", .str token.type),
      ("tokenBase64", .str token.tokenBase64),
      ("issues", .arr (token.issues.map Issue.toJs)),
      ("signature", token.signature.toJs)] ++
    (if includeRawBytes then [("bytes", .bytes token.bytes)] else [])
  match token.view with
  | .unknown reason => .obj (base ++ [("reason", .str reason)])
  | .delegation v =>
      let payloadEntries0 := delegationSummaryEntries v.payload
      let payloadEntries :=
        match decodeStandardBase64ToBytesOrNull svc v.payload.nonce with
        | some nb => setKey payloadEntries0 "nonce" (.bytes nb)
        | Option.none => payloadEntries0
      let jsonPayloadEntries0 := delegationJSONPayloadEntries v.json.envelope.payload
      let jsonPayloadEntries :=
        match decodeStandardBase64ToBytesOrNull svc v.json.envelope.payload.nonce with
        | some nb => setKey jsonPayloadEntries0 "nonce" (.bytes nb)
        | Option.none => jsonPayloadEntries0
      let signatureValue : JsValue :=
        match decodeStandardBase64ToBytesOrNull svc v.json.envelope.signature with
        | some sb => .bytes sb
        | Option.none => .str v.json.envelope.signature
      .obj (base ++
        [("cid", safeCidParse svc v.cid), ("header", v.header.toJs),
          ("payload", .obj payloadEntries), ("timeline", v.timeline.toJs),
          ("json", .obj
            [("token", .str v.json.token), ("cid", safeCidParse svc v.json.cid),
              ("envelope", .obj (jsonEnvelopeEntriesWith (.obj jsonPayloadEntries)
                signatureValue v.json.envelope.alg v.json.envelope.enc
                v.json.envelope.spec v.json.envelope.version))])])
  | .invocation v =>
      let payloadEntries0 := invocationSummaryEntries v.payload
      let payloadEntries1 :=
        match decodeStandardBase64ToBytesOrNull svc v.payload.nonce with
        | some nb => setKey payloadEntries0 "nonce" (.bytes nb)
        | Option.none => payloadEntries0
      let payloadEntries2 := setKey payloadEntries1 "proofs"
        (.arr (safeCidParseAll svc v.payload.proofs))
      let payloadEntries := setKey payloadEntries2 "cause"
        (match v.payload.cause with
          | some cs => safeCidParse svc cs
          | Option.none => .undef)
      let jsonPayloadEntries0 := invocationJSONPayloadEntries v.json.envelope.payload
      let jsonPayloadEntries1 :=
        match decodeStandardBase64ToBytesOrNull svc v.json.envelope.payload.nonce with
        | some nb => setKey jsonPayloadEntries0 "nonce" (.bytes nb)
        | Option.none => jsonPayloadEntries0
      let jsonPayloadEntries2 := setKey jsonPayloadEntries1 "prf"
        (.arr (safeCidParseAll svc v.json.envelope.payload.prf))
      let jsonPayloadEntries := setKey jsonPayloadEntries2 "cause"
        (match v.json.envelope.payload.cause with
          | some cs => safeCidParse svc cs
          | Option.none => .undef)
      let signatureValue : JsValue :=
        match decodeStandardBase64ToBytesOrNull svc v.json.envelope.signature with
        | some sb => .bytes sb
        | Option.none => .str v.json.envelope.signature
      .obj (base ++
        [("cid", safeCidParse svc v.cid), ("header", v.header.toJs),
          ("payload", .obj payloadEntries), ("timeline", v.timeline.toJs),
          ("json", .obj
            [("cid", safeCidParse svc v.json.cid),
              ("envelope", .obj (jsonEnvelopeEntriesWith (.obj jsonPayloadEntries)
                signatureValue v.json.envelope.alg v.json.envelope.enc
                v.json.envelope.spec v.json.envelope.version))])])

/-- A `ContainerEncoding` as its JavaScript string. -/
def ContainerEncoding.toStr : ContainerEncoding → String
  | .raw => "raw"
  | .base64 => "base64"
  | .base64url => "base64url"

/-- A `ContainerCompression` as its JavaScript string. -/
def ContainerCompression.toStr : ContainerCompression → String
  | .none => "none"
  | .gzip => "gzip"

/-- A `ContainerDiagnostic` record as a JavaScript object. -/
def ContainerDiagnostic.toJs (d : ContainerDiagnostic) : JsValue :=
  .obj [("level", .str (match d.level with | .notice => "notice" | .warn => "warn")),
    ("code", .str d.code), ("message", .str d.message)]

/-- The container part of the report export model: header and diagnostics
always, the raw payload bytes, decoded CBOR and raw token byte list only on
request. -/
def containerExportEntries (c : ContainerParseResult) (includeRawBytes : Bool) :
    List (String × JsValue) :=
  [("header", .obj [("raw", .num c.header.raw), ("encoding", .str c.header.encoding.toStr),
      ("compression", .str c.header.compression.toStr)]),
    ("diagnostics", .arr (c.diagnostics.map ContainerDiagnostic.toJs))] ++
  (if includeRawBytes then
    [("payloadBytes", .bytes c.payloadBytes), ("cbor", c.cbor),
      ("tokens", .arr (c.tokens.map JsValue.bytes))]
  else [])

/-- Full analysis output for an inspection run. -/
structure AnalysisReport where
  source : String
  rawInput : String
  container : Option ContainerParseResult
  tokens : List TokenAnalysis
  issues : List Issue
  createdAt : String

/-- `buildReportExportModel`: the report-level export model; the `container`
entry is appended only when present. -/
def buildReportExportModel (svc : ExportServices) (report : AnalysisReport)
    (includeRawBytes : Bool) : JsValue :=
  let tokens := report.tokens.map (fun t => buildTokenExportModel svc t includeRawBytes)
  let baseEntries : List (String × JsValue) :=
    [("source", .str report.source), ("rawInput", .str report.rawInput),
      ("tokens", .arr tokens), ("issues", .arr (report.issues.map Issue.toJs)),
      ("createdAt", .str report.createdAt)]
  match report.container with
  | some c => .obj (baseEntries ++ [("container", .obj (containerExportEntries c includeRawBytes))])
  | Option.none => .obj baseEntries

/-- The plain-JSON output tree of `stringifyReportWithFormat` with
`format = json`: the export model is normalized (undefined properties
omitted, CIDs rendered as strings, keys in preferred order) and then run
through `JSON.stringify` with `reportJsonReplacer`. -/
def reportJsonModel (svc : ExportServices) (report : AnalysisReport)
    (includeRawBytes : Bool) : JsValue :=
  reportJsonReplacerDeep
    (normalizeForExportSerialization (buildReportExportModel svc report includeRawBytes)
      true .string)

/-! ### Structural lemmas for the export serializer -/

theorem attach_any_eq {α} (l : List α) (f : α → Bool) :
    (l.attach.any fun x => f x.val) = l.any f := by
  cases h1 : l.attach.any (fun x => f x.val) <;> cases h2 : l.any f <;> try rfl
  · rw [List.any_eq_true] at h2
    rcases h2 with ⟨a, ha, hfa⟩
    rw [List.any_eq_false] at h1
    exact absurd hfa (by simpa using h1 ⟨a, ha⟩ (List.mem_attach l ⟨a, ha⟩))
  · rw [List.any_eq_true] at h1
    rcases h1 with ⟨x, hx, hfx⟩
    rw [List.any_eq_false] at h2
    exact absurd hfx (h2 x.val x.property)

theorem attach_all_eq {α} (l : List α) (f : α → Bool) :
    (l.attach.all fun x => f x.val) = l.all f := by
  cases h1 : l.attach.all (fun x => f x.val) <;> cases h2 : l.all f <;> try rfl
  · rw [List.all_eq_true] at h2
    rw [List.all_eq_false] at h1
    rcases h1 with ⟨x, hx, hfx⟩
    exact absurd (h2 x.val x.property) hfx
  · rw [List.all_eq_true] at h1
    rw [List.all_eq_false] at h2
    rcases h2 with ⟨a, ha, hfa⟩
    exact absurd (h1 ⟨a, ha⟩ (List.mem_attach l ⟨a, ha⟩)) hfa

theorem attach_map_eq {α β} (l : List α) (g : α → β) :
    (l.attach.map fun x => g x.val) = l.map g :=
  List.attach_map_val l g

theorem attach_filterMap_eq {α β} (l : List α) (g : α → Option β) :
    (l.attach.filterMap fun x => g x.val) = l.filterMap g := by
  induction l with
  | nil => rfl
  | cons a t ih =>
    rw [List.attach_cons, List.filterMap_cons, List.filterMap_map, List.filterMap_cons]
    have hcomp : ((fun x : {x // x ∈ a :: t} => g x.val) ∘
        (fun x : {x // x ∈ t} => (⟨x.val, List.mem_cons_of_mem a x.property⟩ : {x // x ∈ a :: t}))) =
        (fun x : {x // x ∈ t} => g x.val) := rfl
    rw [hcomp, ih]

theorem containsKey_obj (entries : List (String × JsValue)) (key : String) :
    containsKey (.obj entries) key =
      entries.any (fun e => e.1 == key || containsKey e.2 key) := by
  rw [containsKey]
  exact attach_any_eq entries (fun e => e.1 == key || containsKey e.2 key)

theorem containsKey_arr (elems : List JsValue) (key : String) :
    containsKey (.arr elems) key = elems.any (fun v => containsKey v key) := by
  rw [containsKey]
  exact attach_any_eq elems (fun v => containsKey v key)

theorem normalize_obj_eq (entries : List (String × JsValue)) (o : Bool) (c : CidSerialization) :
    normalizeForExportSerialization (.obj entries) o c =
      .obj ((pickEntries (getPreferredKeyOrder entries) entries).filterMap
        (fun e => if o && e.2.isUndef then Option.none
          else some (e.1, normalizeForExportSerialization e.2 o c))) := by
  rw [normalizeForExportSerialization]
  congr 1
  exact attach_filterMap_eq (pickEntries (getPreferredKeyOrder entries) entries)
    (fun e => if o && e.2.isUndef then Option.none
      else some (e.1, normalizeForExportSerialization e.2 o c))

theorem normalize_arr_eq (elems : List JsValue) (o : Bool) (c : CidSerialization) :
    normalizeForExportSerialization (.arr elems) o c =
      .arr (elems.map (fun v => normalizeForExportSerialization v o c)) := by
  rw [normalizeForExportSerialization]
  congr 1
  exact attach_map_eq elems (fun v => normalizeForExportSerialization v o c)

theorem replacer_obj_eq (entries : List (String × JsValue)) :
    reportJsonReplacerDeep (.obj entries) =
      .obj (entries.filterMap
        (fun e => if e.2.isUndef then Option.none
          else some (e.1, reportJsonReplacerDeep e.2))) := by
  rw [reportJsonReplacerDeep]
  congr 1
  exact attach_filterMap_eq entries
    (fun e => if e.2.isUndef then Option.none else some (e.1, reportJsonReplacerDeep e.2))

theorem replacer_arr_eq (elems : List JsValue) :
    reportJsonReplacerDeep (.arr elems) =
      .arr (elems.map (fun v => if v.isUndef then .nullV else reportJsonReplacerDeep v)) := by
  rw [reportJsonReplacerDeep]
  congr 1
  exact attach_map_eq elems (fun v => if v.isUndef then JsValue.nullV else reportJsonReplacerDeep v)

theorem jsonReady_obj (entries : List (String × JsValue)) :
    jsonReady (.obj entries) = entries.all (fun e => jsonReady e.2) := by
  rw [jsonReady]
  exact attach_all_eq entries (fun e => jsonReady e.2)

theorem jsonReady_arr (elems : List JsValue) :
    jsonReady (.arr elems) = elems.all jsonReady := by
  rw [jsonReady]
  exact attach_all_eq elems jsonReady

theorem hasNoCid_obj (entries : List (String × JsValue)) :
    hasNoCid (.obj entries) = entries.all (fun e => hasNoCid e.2) := by
  rw [hasNoCid]
  exact attach_all_eq entries (fun e => hasNoCid e.2)

theorem hasNoCid_arr (elems : List JsValue) :
    hasNoCid (.arr elems) = elems.all hasNoCid := by
  rw [hasNoCid]
  exact attach_all_eq elems hasNoCid

/-! ### Key ordering (claim C8) -/

theorem contains_eq_decide_mem (l : List String) (a : String) :
    l.contains a = decide (a ∈ l) := by
  simp [List.contains, List.elem_eq_mem]

theorem pickOrderedKeys_fst :
    ∀ (spec present : List String), spec.Nodup →
      (pickOrderedKeys spec present).1 = spec.filter (fun k => present.contains k) := by
  intro spec
  induction spec with
  | nil =>
    intro present _
    rfl
  | cons k rest ih =>
    intro present hnd
    rcases List.nodup_cons.mp hnd with ⟨hk, hrest⟩
    unfold pickOrderedKeys
    by_cases hc : present.contains k = true
    · rw [if_pos hc, List.filter_cons_of_pos hc]
      dsimp only
      rw [ih _ hrest]
      congr 1
      apply List.filter_congr
      intro x hx
      have hxk : x ≠ k := fun h => hk (h ▸ hx)
      rw [contains_eq_decide_mem, contains_eq_decide_mem]
      congr 1
      simp [List.mem_erase_of_ne hxk]
    · rw [if_neg hc, List.filter_cons_of_neg hc]
      exact ih _ hrest

theorem pickOrderedKeys_snd :
    ∀ (spec present : List String), spec.Nodup → present.Nodup →
      (pickOrderedKeys spec present).2 = present.filter (fun p => !(spec.contains p)) := by
  intro spec
  induction spec with
  | nil =>
    intro present _ _
    simp [pickOrderedKeys, List.filter_eq_self]
  | cons k rest ih =>
    intro present hnd hp
    rcases List.nodup_cons.mp hnd with ⟨hk, hrest⟩
    unfold pickOrderedKeys
    by_cases hc : present.contains k = true
    · rw [if_pos hc]
      dsimp only
      rw [ih _ hrest (hp.erase k)]
      rw [List.Nodup.erase_eq_filter hp k]
      rw [List.filter_filter]
      apply List.filter_congr
      intro x hx
      rw [contains_eq_decide_mem, contains_eq_decide_mem]
      by_cases hxk : x = k
      · simp [hxk]
      · simp [hxk, List.mem_cons]
    · rw [if_neg hc]
      rw [ih _ hrest hp]
      apply List.filter_congr
      intro x hx
      have hxk : x ≠ k := by
        intro h
        rw [contains_eq_decide_mem] at hc
        exact hc (by simpa [h] using hx)
      rw [contains_eq_decide_mem, contains_eq_decide_mem]
      simp [List.mem_cons, hxk]

theorem getSpecKeyOrder_cases {entries : List (String × JsValue)} {t : List String}
    (h : getSpecKeyOrder entries = some t) :
    t = delegationPayloadKeyOrder ∨ t = invocationPayloadKeyOrder ∨
      t = invocationSummaryKeyOrder := by
  unfold getSpecKeyOrder at h
  split_ifs at h <;> simp_all

theorem getSpecKeyOrder_nodup {entries : List (String × JsValue)} {t : List String}
    (h : getSpecKeyOrder entries = some t) : t.Nodup := by
  rcases getSpecKeyOrder_cases h with rfl | rfl | rfl <;> decide

theorem getPreferredKeyOrder_template (entries : List (String × JsValue)) (t : List String)
    (ht : getSpecKeyOrder entries = some t) :
    getPreferredKeyOrder entries =
      t.filter (fun k => (recordKeys entries).contains k) ++
      sortStringsLex (((recordKeys entries).dedup).filter (fun k => !(t.contains k))) := by
  unfold getPreferredKeyOrder
  rw [ht]
  dsimp only
  rw [pickOrderedKeys_fst t _ (getSpecKeyOrder_nodup ht),
    pickOrderedKeys_snd t _ (getSpecKeyOrder_nodup ht) (List.nodup_dedup _)]
  congr 1
  apply List.filter_congr
  intro x hx
  rw [contains_eq_decide_mem, contains_eq_decide_mem]
  simp [List.mem_dedup]

theorem getPreferredKeyOrder_fallback (entries : List (String × JsValue))
    (ht : getSpecKeyOrder entries = Option.none) :
    getPreferredKeyOrder entries = sortStringsLex (recordKeys entries) := by
  unfold getPreferredKeyOrder
  rw [ht]

theorem sortStringsLex_sorted (keys : List String) :
    (sortStringsLex keys).Pairwise (fun a b => a ≤ b) := by
  have h := @List.sorted_mergeSort String
    (fun a b => decide (a ≤ b))
    (fun a b c h1 h2 => by
      simp only [decide_eq_true_eq] at h1 h2 ⊢
      exact le_trans h1 h2)
    (fun a b => by
      simp only [Bool.or_eq_true, decide_eq_true_eq]
      exact le_total a b)
    keys
  exact h.imp (fun hab => by simpa using hab)

theorem sortStringsLex_perm (keys : List String) : (sortStringsLex keys).Perm keys :=
  List.mergeSort_perm keys _

theorem mem_sortStringsLex {k : String} {keys : List String} :
    k ∈ sortStringsLex keys ↔ k ∈ keys :=
  (sortStringsLex_perm keys).mem_iff

theorem getPreferredKeyOrder_subset {entries : List (String × JsValue)} {k : String}
    (h : k ∈ getPreferredKeyOrder entries) : k ∈ recordKeys entries := by
  cases ht : getSpecKeyOrder entries with
  | none =>
    rw [getPreferredKeyOrder_fallback entries ht] at h
    exact mem_sortStringsLex.mp h
  | some t =>
    rw [getPreferredKeyOrder_template entries t ht] at h
    rcases List.mem_append.mp h with h1 | h2
    · have := List.of_mem_filter h1
      rw [contains_eq_decide_mem] at this
      simpa using this
    · have := mem_sortStringsLex.mp h2
      exact List.mem_dedup.mp (List.mem_of_mem_filter this)

theorem pickEntries_map_fst {keys : List String} {entries : List (String × JsValue)}
    (h : ∀ k ∈ keys, k ∈ recordKeys entries) :
    (pickEntries keys entries).map Prod.fst = keys := by
  induction keys with
  | nil => rfl
  | cons k rest ih =>
    have hk := h k (by simp)
    rcases List.mem_map.mp hk with ⟨e, he, hek⟩
    have hfind : ∃ e0, entries.find? (fun x => x.1 == k) = some e0 := by
      rw [← Option.isSome_iff_exists]
      rw [List.find?_isSome]
      exact ⟨e, he, by simp [hek]⟩
    rcases hfind with ⟨e0, he0⟩
    have he0k : e0.1 = k := by
      have := List.find?_some he0
      simpa using this
    unfold pickEntries
    rw [List.filterMap_cons, he0]
    dsimp only
    unfold pickEntries at ih
    simp only [List.map_cons]
    rw [ih (fun x hx => h x (by simp [hx])), he0k]

def jsKeysOf : JsValue → List String
  | .obj l => l.map Prod.fst
  | _ => []

theorem normalize_keys (entries : List (String × JsValue)) (c : CidSerialization) :
    jsKeysOf (normalizeForExportSerialization (.obj entries) false c) =
      getPreferredKeyOrder entries := by
  rw [normalize_obj_eq]
  rw [show (fun (e : String × JsValue) => if false && e.2.isUndef then Option.none
      else some (e.1, normalizeForExportSerialization e.2 false c)) =
      some ∘ (fun e => (e.1, normalizeForExportSerialization e.2 false c)) from
    funext (fun e => by simp [Function.comp])]
  rw [List.filterMap_eq_map]
  simp only [jsKeysOf, List.map_map]
  exact pickEntries_map_fst (fun k hk => getPreferredKeyOrder_subset hk)

theorem normalize_keys_of_no_undef (entries : List (String × JsValue)) (c : CidSerialization)
    (h : ∀ e ∈ entries, e.2.isUndef = false) :
    jsKeysOf (normalizeForExportSerialization (.obj entries) true c) =
      getPreferredKeyOrder entries := by
  rw [normalize_obj_eq]
  have hcong : ∀ e ∈ pickEntries (getPreferredKeyOrder entries) entries,
      (fun (e : String × JsValue) => if true && e.2.isUndef then Option.none
        else some (e.1, normalizeForExportSerialization e.2 true c)) e =
      (some ∘ (fun (e : String × JsValue) =>
        (e.1, normalizeForExportSerialization e.2 true c))) e :=
    fun e he => by simp [Function.comp, h e (mem_pickEntries he)]
  rw [List.filterMap_congr hcong]
  rw [List.filterMap_eq_map]
  simp only [jsKeysOf, List.map_map]
  exact pickEntries_map_fst (fun k hk => getPreferredKeyOrder_subset hk)

/-- C8: export key ordering is deterministic and spec-derived.  The three
templates are exactly the spec's key lists; a record matching a template is
ordered template-first (present keys in template order) with the remaining
keys appended in ascending lexical order; a record matching no template is
ordered fully lexically; `sortStringsLex` really is an ascending sort; and
the ordering is what `normalizeForExportSerialization` applies to every
object — at any nesting depth, since the export normalization maps each
nested object through the same function. -/
theorem C8_export_key_order :
    (delegationPayloadKeyOrder =
        ["iss", "aud", "sub", "cmd", "pol", "nonce", "meta", "nbf", "exp"] ∧
      invocationPayloadKeyOrder =
        ["iss", "sub", "aud", "cmd", "args", "prf", "meta", "nonce", "exp", "iat", "cause"] ∧
      invocationSummaryKeyOrder =
        ["iss", "sub", "aud", "cmd", "args", "proofs", "meta", "nonce", "nbf", "exp", "iat",
          "cause"]) ∧
    (∀ entries t, getSpecKeyOrder entries = some t →
      getPreferredKeyOrder entries =
        t.filter (fun k => (recordKeys entries).contains k) ++
        sortStringsLex (((recordKeys entries).dedup).filter (fun k => !(t.contains k)))) ∧
    (∀ entries, getSpecKeyOrder entries = Option.none →
      getPreferredKeyOrder entries = sortStringsLex (recordKeys entries)) ∧
    (∀ keys, (sortStringsLex keys).Pairwise (fun a b => a ≤ b) ∧
      (sortStringsLex keys).Perm keys) ∧
    (∀ entries c, jsKeysOf (normalizeForExportSerialization (.obj entries) false c) =
      getPreferredKeyOrder entries) ∧
    (∀ entries c, (∀ e ∈ entries, e.2.isUndef = false) →
      jsKeysOf (normalizeForExportSerialization (.obj entries) true c) =
        getPreferredKeyOrder entries) :=
  ⟨⟨rfl, rfl, rfl⟩,
    fun entries t ht => getPreferredKeyOrder_template entries t ht,
    fun entries ht => getPreferredKeyOrder_fallback entries ht,
    fun keys => ⟨sortStringsLex_sorted keys, sortStringsLex_perm keys⟩,
    fun entries c => normalize_keys entries c,
    fun entries c h => normalize_keys_of_no_undef entries c h⟩

/-- A scrambled delegation payload record with one extra key, for the C8
witness. -/
def scrambledDelegationEntries : List (String × JsValue) :=
  [("exp", .nullV), ("extra", .num 1), ("nonce", .str "n"), ("iss", .str "i"),
    ("aud", .str "a"), ("sub", .nullV), ("cmd", .str "c"), ("pol", .arr []),
    ("meta", .obj []), ("nbf", .num 2)]

/-- C8 witness: the template path at a scrambled delegation record, the
lexical fallback at a non-matching record, and the normalized-keys equation
at a record without undefined values. -/
theorem C8_export_key_order_witness :
    getPreferredKeyOrder scrambledDelegationEntries =
      delegationPayloadKeyOrder.filter
        (fun k => (recordKeys scrambledDelegationEntries).contains k) ++
      sortStringsLex (((recordKeys scrambledDelegationEntries).dedup).filter
        (fun k => !(delegationPayloadKeyOrder.contains k))) ∧
    getPreferredKeyOrder [("b", JsValue.num 1), ("a", JsValue.num 2)] =
      sortStringsLex (recordKeys [("b", JsValue.num 1), ("a", JsValue.num 2)]) ∧
    jsKeysOf (normalizeForExportSerialization (.obj scrambledDelegationEntries) true .string) =
      getPreferredKeyOrder scrambledDelegationEntries :=
  ⟨C8_export_key_order.2.1 scrambledDelegationEntries delegationPayloadKeyOrder (by decide),
    C8_export_key_order.2.2.1 [("b", JsValue.num 1), ("a", JsValue.num 2)] (by decide),
    C8_export_key_order.2.2.2.2.2 scrambledDelegationEntries .string (by decide)⟩

/-- C7 witness: the duplicate part applied at the concrete unsorted
duplicated container. -/
theorem C7_canonicality_diagnostics_witness :
    0 < duplicateCount [[1], [2], [1]] ∧
    duplicateTokensDiag (duplicateCount [[1], [2], [1]]) ∈ diagnoseCanonicality [[1], [2], [1]] [] ∧
    tokensNotSortedDiag ∈ diagnoseCanonicality [[1], [2], [1]] [] := by
  refine ⟨(C7_canonicality_diagnostics.1 [[1], [2], [1]] [] [1] (by decide)).1,
    (C7_canonicality_diagnostics.1 [[1], [2], [1]] [] [1] (by decide)).2,
    C7_canonicality_diagnostics.2.1 [[1], [2], [1]] [] ?_⟩
  intro hp
  have h21 := List.rel_of_pairwise_cons (List.pairwise_cons.mp hp).2 (by simp : [1] ∈ [[1]])
  revert h21
  decide

theorem sizeOf_pos_js (v : JsValue) : 0 < sizeOf v := by
  cases v <;> simp <;> omega

theorem containsKey_str (s key : String) : containsKey (.str s) key = false := by
  simp [containsKey]

theorem normalize_nullV (o : Bool) (c : CidSerialization) :
    normalizeForExportSerialization .nullV o c = .nullV := by
  rw [normalizeForExportSerialization.eq_def]

theorem normalize_undef (o : Bool) (c : CidSerialization) :
    normalizeForExportSerialization .undef o c = .undef := by
  rw [normalizeForExportSerialization.eq_def]

theorem normalize_bytes (b : List Nat) (o : Bool) (c : CidSerialization) :
    normalizeForExportSerialization (.bytes b) o c = .bytes b := by
  rw [normalizeForExportSerialization.eq_def]

theorem normalize_str (s : String) (o : Bool) (c : CidSerialization) :
    normalizeForExportSerialization (.str s) o c = .str s := by
  rw [normalizeForExportSerialization.eq_def]

theorem normalize_num (m : Int) (o : Bool) (c : CidSerialization) :
    normalizeForExportSerialization (.num m) o c = .num m := by
  rw [normalizeForExportSerialization.eq_def]

theorem normalize_bool (b : Bool) (o : Bool) (c : CidSerialization) :
    normalizeForExportSerialization (.bool b) o c = .bool b := by
  rw [normalizeForExportSerialization.eq_def]

theorem normalize_cid (s : String) (o : Bool) (c : CidSerialization) :
    normalizeForExportSerialization (.cid s) o c =
      (match c with | .string => .str s | .keep => .cid s) := by
  rw [normalizeForExportSerialization.eq_def]

theorem replacer_bytes (b : List Nat) :
    reportJsonReplacerDeep (.bytes b) = .str (encodeBase64 b .standard) := by
  rw [reportJsonReplacerDeep.eq_def]

theorem replacer_leaf (v : JsValue)
    (h1 : ∀ entries, v ≠ .obj entries) (h2 : ∀ elems, v ≠ .arr elems)
    (h3 : ∀ b, v ≠ .bytes b) : reportJsonReplacerDeep v = v := by
  rw [reportJsonReplacerDeep.eq_def]
  cases v <;> first
    | exact absurd rfl (h1 _)
    | exact absurd rfl (h2 _)
    | exact absurd rfl (h3 _)
    | rfl

theorem containsKey_normalize_le :
    ∀ (n : Nat) (v : JsValue), sizeOf v ≤ n → ∀ (o : Bool) (c : CidSerialization) (key : String),
      containsKey (normalizeForExportSerialization v o c) key = true →
      containsKey v key = true := by
  intro n
  induction n with
  | zero =>
    intro v hv
    have := sizeOf_pos_js v
    omega
  | succ n ih =>
    intro v hv o c key h
    cases v with
    | obj entries =>
      rw [normalize_obj_eq, containsKey_obj, List.any_eq_true] at h
      rcases h with ⟨e, he, hpe⟩
      rcases List.mem_filterMap.mp he with ⟨⟨k0, v0⟩, hmem0, heq⟩
      have hmem : (k0, v0) ∈ entries := mem_pickEntries hmem0
      by_cases hu : (o && (JsValue.isUndef v0)) = true
      · rw [if_pos hu] at heq
        exact absurd heq (by simp)
      · rw [if_neg hu] at heq
        have he2 : e = (k0, normalizeForExportSerialization v0 o c) :=
          (Option.some.inj heq).symm
        subst he2
        rw [containsKey_obj, List.any_eq_true]
        refine ⟨(k0, v0), hmem, ?_⟩
        simp only at hpe ⊢
        rcases Bool.or_eq_true_iff.mp hpe with hk | hrec
        · exact Bool.or_eq_true_iff.mpr (Or.inl hk)
        · refine Bool.or_eq_true_iff.mpr (Or.inr ?_)
          have hsz : sizeOf v0 ≤ n := by
            have h1 := List.sizeOf_lt_of_mem hmem
            simp [Prod.mk.sizeOf_spec] at h1
            simp only [JsValue.obj.sizeOf_spec] at hv
            omega
          exact ih v0 hsz o c key hrec
    | arr elems =>
      rw [normalize_arr_eq, containsKey_arr, List.any_eq_true] at h
      rcases h with ⟨w, hw, hcw⟩
      rcases List.mem_map.mp hw with ⟨v0, hv0, hveq⟩
      subst hveq
      rw [containsKey_arr, List.any_eq_true]
      refine ⟨v0, hv0, ?_⟩
      have hsz : sizeOf v0 ≤ n := by
        have h1 := List.sizeOf_lt_of_mem hv0
        simp only [JsValue.arr.sizeOf_spec] at hv
        omega
      exact ih v0 hsz o c key hcw
    | nullV => rw [normalize_nullV] at h; simp [containsKey] at h
    | undef => rw [normalize_undef] at h; simp [containsKey] at h
    | bytes b => rw [normalize_bytes] at h; simp [containsKey] at h
    | str s => rw [normalize_str] at h; simp [containsKey] at h
    | num m => rw [normalize_num] at h; simp [containsKey] at h
    | bool b => rw [normalize_bool] at h; simp [containsKey] at h
    | cid s =>
      rw [normalize_cid] at h
      cases c <;> simp [containsKey] at h

theorem containsKey_replacer_le :
    ∀ (n : Nat) (v : JsValue), sizeOf v ≤ n → ∀ (key : String),
      containsKey (reportJsonReplacerDeep v) key = true → containsKey v key = true := by
  intro n
  induction n with
  | zero =>
    intro v hv
    have := sizeOf_pos_js v
    omega
  | succ n ih =>
    intro v hv key h
    cases v with
    | obj entries =>
      rw [replacer_obj_eq, containsKey_obj, List.any_eq_true] at h
      rcases h with ⟨e, he, hpe⟩
      rcases List.mem_filterMap.mp he with ⟨⟨k0, v0⟩, hmem, heq⟩
      by_cases hu : (JsValue.isUndef v0) = true
      · rw [if_pos hu] at heq
        exact absurd heq (by simp)
      · rw [if_neg hu] at heq
        have he2 : e = (k0, reportJsonReplacerDeep v0) := (Option.some.inj heq).symm
        subst he2
        rw [containsKey_obj, List.any_eq_true]
        refine ⟨(k0, v0), hmem, ?_⟩
        simp only at hpe ⊢
        rcases Bool.or_eq_true_iff.mp hpe with hk | hrec
        · exact Bool.or_eq_true_iff.mpr (Or.inl hk)
        · refine Bool.or_eq_true_iff.mpr (Or.inr ?_)
          have hsz : sizeOf v0 ≤ n := by
            have h1 := List.sizeOf_lt_of_mem hmem
            simp [Prod.mk.sizeOf_spec] at h1
            simp only [JsValue.obj.sizeOf_spec] at hv
            omega
          exact ih v0 hsz key hrec
    | arr elems =>
      rw [replacer_arr_eq, containsKey_arr, List.any_eq_true] at h
      rcases h with ⟨w, hw, hcw⟩
      rcases List.mem_map.mp hw with ⟨v0, hv0, hveq⟩
      subst hveq
      rw [containsKey_arr, List.any_eq_true]
      refine ⟨v0, hv0, ?_⟩
      by_cases hu : (JsValue.isUndef v0) = true
      · rw [if_pos hu] at hcw
        simp [containsKey] at hcw
      · rw [if_neg hu] at hcw
        have hsz : sizeOf v0 ≤ n := by
          have h1 := List.sizeOf_lt_of_mem hv0
          simp only [JsValue.arr.sizeOf_spec] at hv
          omega
        exact ih v0 hsz key hcw
    | bytes b => rw [replacer_bytes] at h; simp [containsKey] at h
    | nullV =>
      rw [replacer_leaf _ (by simp) (by simp) (by simp)] at h
      simp [containsKey] at h
    | undef =>
      rw [replacer_leaf _ (by simp) (by simp) (by simp)] at h
      simp [containsKey] at h
    | str s =>
      rw [replacer_leaf _ (by simp) (by simp) (by simp)] at h
      simp [containsKey] at h
    | num m =>
      rw [replacer_leaf _ (by simp) (by simp) (by simp)] at h
      simp [containsKey] at h
    | bool b =>
      rw [replacer_leaf _ (by simp) (by simp) (by simp)] at h
      simp [containsKey] at h
    | cid s =>
      rw [replacer_leaf _ (by simp) (by simp) (by simp)] at h
      simp [containsKey] at h

theorem containsKey_obj_nil (key : String) : containsKey (.obj []) key = false := by
  rw [containsKey_obj]
  rfl

theorem containsKey_obj_cons (k0 : String) (v0 : JsValue) (rest : List (String × JsValue))
    (key : String) :
    containsKey (.obj ((k0, v0) :: rest)) key =
      ((k0 == key) || containsKey v0 key || containsKey (.obj rest) key) := by
  rw [containsKey_obj, List.any_cons, containsKey_obj, Bool.or_assoc]

theorem containsKey_obj_append (l1 l2 : List (String × JsValue)) (key : String) :
    containsKey (.obj (l1 ++ l2)) key =
      (containsKey (.obj l1) key || containsKey (.obj l2) key) := by
  rw [containsKey_obj, List.any_append, containsKey_obj, containsKey_obj]

theorem containsKey_arr_nil (key : String) : containsKey (.arr []) key = false := by
  rw [containsKey_arr]
  rfl

theorem containsKey_arr_cons (v0 : JsValue) (rest : List JsValue) (key : String) :
    containsKey (.arr (v0 :: rest)) key =
      (containsKey v0 key || containsKey (.arr rest) key) := by
  rw [containsKey_arr, List.any_cons, containsKey_arr]

theorem containsKey_arr_all_false {elems : List JsValue} {key : String}
    (h : ∀ v ∈ elems, containsKey v key = false) : containsKey (.arr elems) key = false := by
  rw [containsKey_arr]
  exact List.any_eq_false.mpr (fun v hv => by simp [h v hv])

/-- Every fixed property name emitted anywhere by the export model builders
(report, container, token, nested views) — the raw-byte keys `bytes`,
`payloadBytes`, `cbor` are deliberately *not* in this list. -/
def modelFixedKeys : List String :=
  ["source", "rawInput", "tokens", "issues", "createdAt", "container", "header", "raw",
    "encoding", "compression", "diagnostics", "level", "code", "message", "id", "index",
    "type", "tokenBase64", "signature", "status", "reason", "cid", "payload", "timeline",
    "json", "algorithm", "version", "spec", "expLabel", "expRelative", "nbfLabel",
    "nbfRelative", "state", "token", "envelope", "alg", "enc", "iss", "aud", "sub", "cmd",
    "pol", "exp", "nbf", "meta", "nonce", "args", "proofs", "iat", "cause", "prf"]

theorem fixedKey_ne (k0 : String) {key : String} (h0 : k0 ∈ modelFixedKeys)
    (h : key ∉ modelFixedKeys) : (k0 == key) = false := by
  rw [beq_eq_false_iff_ne]
  intro he
  exact h (he ▸ h0)

theorem containsKey_optStr (o : Option String) (key : String) :
    containsKey (optStr o) key = false := by
  cases o <;> simp [optStr, containsKey]

theorem containsKey_optStrNull (o : Option String) (key : String) :
    containsKey (optStrNull o) key = false := by
  cases o <;> simp [optStrNull, containsKey]

theorem containsKey_optInt (o : Option Int) (key : String) :
    containsKey (optInt o) key = false := by
  cases o <;> simp [optInt, containsKey]

theorem containsKey_optIntNull (o : Option Int) (key : String) :
    containsKey (optIntNull o) key = false := by
  cases o <;> simp [optIntNull, containsKey]

theorem containsKey_safeCidParse (svc : ExportServices) (s key : String) :
    containsKey (safeCidParse svc s) key = false := by
  unfold safeCidParse
  split <;> simp [containsKey]

theorem containsKey_Issue_toJs (i : Issue) {key : String} (h : key ∉ modelFixedKeys) :
    containsKey (Issue.toJs i) key = false := by
  have h1 := fixedKey_ne "level" (by decide) h
  have h2 := fixedKey_ne "code" (by decide) h
  have h3 := fixedKey_ne "message" (by decide) h
  simp [Issue.toJs, containsKey_obj_cons, containsKey_obj_nil, containsKey_str, h1, h2, h3]

theorem containsKey_SignatureInsight_toJs (s : SignatureInsight) {key : String}
    (h : key ∉ modelFixedKeys) : containsKey (s.toJs) key = false := by
  have h1 := fixedKey_ne "status" (by decide) h
  have h2 := fixedKey_ne "reason" (by decide) h
  simp [SignatureInsight.toJs, containsKey_obj_cons, containsKey_obj_nil, containsKey_str,
    containsKey_optStr, h1, h2]

theorem containsKey_TokenTimeline_toJs (t : TokenTimeline) {key : String}
    (h : key ∉ modelFixedKeys) : containsKey (t.toJs) key = false := by
  have h1 := fixedKey_ne "expLabel" (by decide) h
  have h2 := fixedKey_ne "expRelative" (by decide) h
  have h3 := fixedKey_ne "nbfLabel" (by decide) h
  have h4 := fixedKey_ne "nbfRelative" (by decide) h
  have h5 := fixedKey_ne "state" (by decide) h
  simp [TokenTimeline.toJs, containsKey_obj_cons, containsKey_obj_nil, containsKey_str,
    h1, h2, h3, h4, h5]

theorem containsKey_TokenHeaderView_toJs (v : TokenHeaderView) {key : String}
    (h : key ∉ modelFixedKeys) : containsKey (v.toJs) key = false := by
  have h1 := fixedKey_ne "algorithm" (by decide) h
  have h2 := fixedKey_ne "encoding" (by decide) h
  have h3 := fixedKey_ne "version" (by decide) h
  have h4 := fixedKey_ne "spec" (by decide) h
  simp [TokenHeaderView.toJs, containsKey_obj_cons, containsKey_obj_nil, containsKey_str,
    h1, h2, h3, h4]

theorem containsKey_ContainerDiagnostic_toJs (d : ContainerDiagnostic) {key : String}
    (h : key ∉ modelFixedKeys) : containsKey (d.toJs) key = false := by
  have h1 := fixedKey_ne "level" (by decide) h
  have h2 := fixedKey_ne "code" (by decide) h
  have h3 := fixedKey_ne "message" (by decide) h
  simp [ContainerDiagnostic.toJs, containsKey_obj_cons, containsKey_obj_nil, containsKey_str,
    h1, h2, h3]

theorem containsKey_obj_setKey {entries : List (String × JsValue)} {k : String} {v : JsValue}
    {key : String} (hv : containsKey v key = false)
    (h : containsKey (.obj entries) key = false) :
    containsKey (.obj (setKey entries k v)) key = false := by
  rw [containsKey_obj] at h ⊢
  rw [List.any_eq_false] at h ⊢
  intro e he
  rcases List.mem_map.mp he with ⟨e0, he0, heq⟩
  have h0 := h e0 he0
  by_cases hk : (e0.1 == k) = true
  · rw [if_pos hk] at heq
    subst heq
    simp only [Bool.or_eq_true, not_or] at h0 ⊢
    exact ⟨h0.1, by simp [hv]⟩
  · rw [if_neg hk] at heq
    subst heq
    exact h0

theorem containsKey_optJs_some {v : JsValue} {key : String}
    (h : containsKey (optJs (some v)) key = false) : containsKey v key = false := h

theorem containsKey_delegationSummary (p : DelegationSummary) {key : String}
    (h : key ∉ modelFixedKeys) (hpol : containsKey p.pol key = false)
    (hmeta : containsKey (optJs p.meta) key = false) :
    containsKey (.obj (delegationSummaryEntries p)) key = false := by
  have h1 := fixedKey_ne "iss" (by decide) h
  have h2 := fixedKey_ne "aud" (by decide) h
  have h3 := fixedKey_ne "sub" (by decide) h
  have h4 := fixedKey_ne "cmd" (by decide) h
  have h5 := fixedKey_ne "pol" (by decide) h
  have h6 := fixedKey_ne "exp" (by decide) h
  have h7 := fixedKey_ne "nbf" (by decide) h
  have h8 := fixedKey_ne "meta" (by decide) h
  have h9 := fixedKey_ne "nonce" (by decide) h
  simp [delegationSummaryEntries, containsKey_obj_cons, containsKey_obj_nil, containsKey_str,
    containsKey_optStr, containsKey_optStrNull, containsKey_optInt, containsKey_optIntNull,
    hpol, hmeta, h1, h2, h3, h4, h5, h6, h7, h8, h9]

theorem containsKey_invocationSummary (p : InvocationSummary) {key : String}
    (h : key ∉ modelFixedKeys) (hargs : containsKey p.args key = false)
    (hmeta : containsKey (optJs p.meta) key = false) :
    containsKey (.obj (invocationSummaryEntries p)) key = false := by
  have h1 := fixedKey_ne "iss" (by decide) h
  have h2 := fixedKey_ne "aud" (by decide) h
  have h3 := fixedKey_ne "sub" (by decide) h
  have h4 := fixedKey_ne "cmd" (by decide) h
  have h5 := fixedKey_ne "args" (by decide) h
  have h6 := fixedKey_ne "proofs" (by decide) h
  have h7 := fixedKey_ne "exp" (by decide) h
  have h8 := fixedKey_ne "nbf" (by decide) h
  have h9 := fixedKey_ne "iat" (by decide) h
  have h10 := fixedKey_ne "meta" (by decide) h
  have h11 := fixedKey_ne "cause" (by decide) h
  have h12 := fixedKey_ne "nonce" (by decide) h
  have hproofs : containsKey (.arr (p.proofs.map JsValue.str)) key = false := by
    apply containsKey_arr_all_false
    intro v hv
    rcases List.mem_map.mp hv with ⟨s, _, rfl⟩
    exact containsKey_str s key
  simp [invocationSummaryEntries, containsKey_obj_cons, containsKey_obj_nil, containsKey_str,
    containsKey_optStr, containsKey_optStrNull, containsKey_optInt, containsKey_optIntNull,
    hargs, hmeta, hproofs, h1, h2, h3, h4, h5, h6, h7, h8, h9, h10, h11, h12]

theorem containsKey_delegationJSONPayload (p : DelegationJSONPayload) {key : String}
    (h : key ∉ modelFixedKeys) (hpol : containsKey p.pol key = false)
    (hmeta : containsKey (optJs p.meta) key = false) :
    containsKey (.obj (delegationJSONPayloadEntries p)) key = false := by
  have h1 := fixedKey_ne "iss" (by decide) h
  have h2 := fixedKey_ne "aud" (by decide) h
  have h3 := fixedKey_ne "sub" (by decide) h
  have h4 := fixedKey_ne "cmd" (by decide) h
  have h5 := fixedKey_ne "pol" (by decide) h
  have h6 := fixedKey_ne "exp" (by decide) h
  have h7 := fixedKey_ne "nbf" (by decide) h
  have h8 := fixedKey_ne "nonce" (by decide) h
  have h9 := fixedKey_ne "meta" (by decide) h
  simp [delegationJSONPayloadEntries, containsKey_obj_cons, containsKey_obj_nil,
    containsKey_str, containsKey_optStr, containsKey_optStrNull, containsKey_optInt,
    containsKey_optIntNull, hpol, hmeta, h1, h2, h3, h4, h5, h6, h7, h8, h9]

theorem containsKey_invocationJSONPayload (p : InvocationJSONPayload) {key : String}
    (h : key ∉ modelFixedKeys) (hargs : containsKey (optJs p.args) key = false)
    (hmeta : containsKey (optJs p.meta) key = false) :
    containsKey (.obj (invocationJSONPayloadEntries p)) key = false := by
  have h1 := fixedKey_ne "iss" (by decide) h
  have h2 := fixedKey_ne "aud" (by decide) h
  have h3 := fixedKey_ne "sub" (by decide) h
  have h4 := fixedKey_ne "cmd" (by decide) h
  have h5 := fixedKey_ne "args" (by decide) h
  have h6 := fixedKey_ne "exp" (by decide) h
  have h7 := fixedKey_ne "nbf" (by decide) h
  have h8 := fixedKey_ne "iat" (by decide) h
  have h9 := fixedKey_ne "meta" (by decide) h
  have h10 := fixedKey_ne "nonce" (by decide) h
  have h11 := fixedKey_ne "prf" (by decide) h
  have h12 := fixedKey_ne "cause" (by decide) h
  have hprf : containsKey (.arr (p.prf.map JsValue.str)) key = false := by
    apply containsKey_arr_all_false
    intro v hv
    rcases List.mem_map.mp hv with ⟨s, _, rfl⟩
    exact containsKey_str s key
  simp [invocationJSONPayloadEntries, containsKey_obj_cons, containsKey_obj_nil,
    containsKey_str, containsKey_optStr, containsKey_optStrNull, containsKey_optInt,
    containsKey_optIntNull, hargs, hmeta, hprf, h1, h2, h3, h4, h5, h6, h7, h8, h9, h10,
    h11, h12]

theorem containsKey_num (m : Int) (key : String) : containsKey (.num m) key = false := by
  simp [containsKey]

theorem containsKey_bytes (b : List Nat) (key : String) :
    containsKey (.bytes b) key = false := by
  simp [containsKey]

theorem containsKey_cid (s key : String) : containsKey (.cid s) key = false := by
  simp [containsKey]

theorem containsKey_undef (key : String) : containsKey .undef key = false := by
  simp [containsKey]

/-- The free-form (caller-supplied JSON) fields of a token analysis avoid a
key: `pol`/`args`/`meta` of the summary payload and of the export-JSON
payload do not contain it.  Every other field of the export model has a
fixed shape. -/
def tokenFreeFormAvoids (token : TokenAnalysis) (key : String) : Bool :=
  match token.view with
  | .unknown _ => true
  | .delegation v =>
      !(containsKey v.payload.pol key) && !(containsKey (optJs v.payload.meta) key) &&
      !(containsKey v.json.envelope.payload.pol key) &&
      !(containsKey (optJs v.json.envelope.payload.meta) key)
  | .invocation v =>
      !(containsKey v.payload.args key) && !(containsKey (optJs v.payload.meta) key) &&
      !(containsKey (optJs v.json.envelope.payload.args) key) &&
      !(containsKey (optJs v.json.envelope.payload.meta) key)

theorem buildTokenExportModel_no_extra_key (svc : ExportServices) (token : TokenAnalysis)
    {key : String} (h : key ∉ modelFixedKeys)
    (hfree : tokenFreeFormAvoids token key = true) :
    containsKey (buildTokenExportModel svc token false) key = false := by
  have hne_id := fixedKey_ne "id" (by decide) h
  have hne_index := fixedKey_ne "index" (by decide) h
  have hne_type := fixedKey_ne "type" (by decide) h
  have hne_tb64 := fixedKey_ne "tokenBase64" (by decide) h
  have hne_issues := fixedKey_ne "issues" (by decide) h
  have hne_sig := fixedKey_ne "signature" (by decide) h
  have hne_reason := fixedKey_ne "reason" (by decide) h
  have hne_cid := fixedKey_ne "cid" (by decide) h
  have hne_header := fixedKey_ne "header" (by decide) h
  have hne_payload := fixedKey_ne "payload" (by decide) h
  have hne_timeline := fixedKey_ne "timeline" (by decide) h
  have hne_json := fixedKey_ne "json" (by decide) h
  have hne_token := fixedKey_ne "token" (by decide) h
  have hne_envelope := fixedKey_ne "envelope" (by decide) h
  have hne_alg := fixedKey_ne "alg" (by decide) h
  have hne_enc := fixedKey_ne "enc" (by decide) h
  have hne_spec := fixedKey_ne "spec" (by decide) h
  have hne_version := fixedKey_ne "version" (by decide) h
  have hissues : containsKey (.arr (token.issues.map Issue.toJs)) key = false := by
    apply containsKey_arr_all_false
    intro v hv
    rcases List.mem_map.mp hv with ⟨i, _, rfl⟩
    exact containsKey_Issue_toJs i h
  have hsig := containsKey_SignatureInsight_toJs token.signature h
  cases hview : token.view with
  | unknown reason =>
    simp only [buildTokenExportModel, hview]
    simp [containsKey_obj_append, containsKey_obj_cons, containsKey_obj_nil, containsKey_str,
      containsKey_num, hissues, hsig, hne_id, hne_index, hne_type, hne_tb64, hne_issues,
      hne_sig, hne_reason]
  | delegation v =>
    unfold tokenFreeFormAvoids at hfree
    rw [hview] at hfree
    simp only [Bool.and_eq_true, Bool.not_eq_true'] at hfree
    obtain ⟨⟨⟨hpol, hmeta⟩, hjpol⟩, hjmeta⟩ := hfree
    have hpay : ∀ payloadEntries,
        (payloadEntries = delegationSummaryEntries v.payload ∨
          ∃ nb, payloadEntries = setKey (delegationSummaryEntries v.payload) "nonce" (.bytes nb)) →
        containsKey (.obj payloadEntries) key = false := by
      intro pe hpe
      have hbase := containsKey_delegationSummary v.payload h hpol hmeta
      rcases hpe with rfl | ⟨nb, rfl⟩
      · exact hbase
      · exact containsKey_obj_setKey (containsKey_bytes nb key) hbase
    have hjpay : ∀ payloadEntries,
        (payloadEntries = delegationJSONPayloadEntries v.json.envelope.payload ∨
          ∃ nb, payloadEntries =
            setKey (delegationJSONPayloadEntries v.json.envelope.payload) "nonce" (.bytes nb)) →
        containsKey (.obj payloadEntries) key = false := by
      intro pe hpe
      have hbase := containsKey_delegationJSONPayload v.json.envelope.payload h hjpol hjmeta
      rcases hpe with rfl | ⟨nb, rfl⟩
      · exact hbase
      · exact containsKey_obj_setKey (containsKey_bytes nb key) hbase
    simp only [buildTokenExportModel, hview]
    cases hdec1 : decodeStandardBase64ToBytesOrNull svc v.payload.nonce <;>
      cases hdec2 : decodeStandardBase64ToBytesOrNull svc v.json.envelope.payload.nonce <;>
      cases hdec3 : decodeStandardBase64ToBytesOrNull svc v.json.envelope.signature <;>
      simp [jsonEnvelopeEntriesWith, containsKey_obj_append, containsKey_obj_cons,
        containsKey_obj_nil, containsKey_str, containsKey_num, containsKey_bytes,
        containsKey_safeCidParse, containsKey_TokenHeaderView_toJs v.header h,
        containsKey_TokenTimeline_toJs v.timeline h, hissues, hsig,
        hpay _ (Or.inl rfl), hpay _ (Or.inr ⟨_, rfl⟩), hjpay _ (Or.inl rfl),
        hjpay _ (Or.inr ⟨_, rfl⟩), hne_id, hne_index, hne_type, hne_tb64, hne_issues,
        hne_sig, hne_cid, hne_header, hne_payload, hne_timeline, hne_json, hne_token,
        hne_envelope, hne_alg, hne_enc, hne_spec, hne_version]
  | invocation v =>
    unfold tokenFreeFormAvoids at hfree
    rw [hview] at hfree
    simp only [Bool.and_eq_true, Bool.not_eq_true'] at hfree
    obtain ⟨⟨⟨hargs, hmeta⟩, hjargs⟩, hjmeta⟩ := hfree
    have hbase1 := containsKey_invocationSummary v.payload h hargs hmeta
    have hbase2 := containsKey_invocationJSONPayload v.json.envelope.payload h hjargs hjmeta
    have hcause : ∀ (co : Option String),
        containsKey (match co with
          | some cs => safeCidParse svc cs
          | Option.none => .undef) key = false := by
      intro co
      cases co
      · exact containsKey_undef key
      · exact containsKey_safeCidParse svc _ key
    have hcids : ∀ (l : List String),
        containsKey (.arr (safeCidParseAll svc l)) key = false := by
      intro l
      apply containsKey_arr_all_false
      intro w hw
      rcases List.mem_map.mp hw with ⟨s, _, rfl⟩
      exact containsKey_safeCidParse svc s key
    have hpay : ∀ pe1,
        (pe1 = invocationSummaryEntries v.payload ∨
          ∃ nb, pe1 = setKey (invocationSummaryEntries v.payload) "nonce" (.bytes nb)) →
        containsKey (.obj (setKey (setKey pe1 "proofs"
          (.arr (safeCidParseAll svc v.payload.proofs))) "cause"
          (match v.payload.cause with
            | some cs => safeCidParse svc cs
            | Option.none => .undef))) key = false := by
      intro pe1 hpe
      have h1 : containsKey (.obj pe1) key = false := by
        rcases hpe with rfl | ⟨nb, rfl⟩
        · exact hbase1
        · exact containsKey_obj_setKey (containsKey_bytes nb key) hbase1
      exact containsKey_obj_setKey (hcause _)
        (containsKey_obj_setKey (hcids _) h1)
    have hjpay : ∀ pe1,
        (pe1 = invocationJSONPayloadEntries v.json.envelope.payload ∨
          ∃ nb, pe1 = setKey (invocationJSONPayloadEntries v.json.envelope.payload) "nonce"
            (.bytes nb)) →
        containsKey (.obj (setKey (setKey pe1 "prf"
          (.arr (safeCidParseAll svc v.json.envelope.payload.prf))) "cause"
          (match v.json.envelope.payload.cause with
            | some cs => safeCidParse svc cs
            | Option.none => .undef))) key = false := by
      intro pe1 hpe
      have h1 : containsKey (.obj pe1) key = false := by
        rcases hpe with rfl | ⟨nb, rfl⟩
        · exact hbase2
        · exact containsKey_obj_setKey (containsKey_bytes nb key) hbase2
      exact containsKey_obj_setKey (hcause _)
        (containsKey_obj_setKey (hcids _) h1)
    simp only [buildTokenExportModel, hview]
    cases hdec1 : decodeStandardBase64ToBytesOrNull svc v.payload.nonce <;>
      cases hdec2 : decodeStandardBase64ToBytesOrNull svc v.json.envelope.payload.nonce <;>
      cases hdec3 : decodeStandardBase64ToBytesOrNull svc v.json.envelope.signature <;>
      simp [jsonEnvelopeEntriesWith, containsKey_obj_append, containsKey_obj_cons,
        containsKey_obj_nil, containsKey_str, containsKey_num, containsKey_bytes,
        containsKey_safeCidParse, containsKey_TokenHeaderView_toJs v.header h,
        containsKey_TokenTimeline_toJs v.timeline h, hissues, hsig,
        hpay _ (Or.inl rfl), hpay _ (Or.inr ⟨_, rfl⟩), hjpay _ (Or.inl rfl),
        hjpay _ (Or.inr ⟨_, rfl⟩), hne_id, hne_index, hne_type, hne_tb64, hne_issues,
        hne_sig, hne_cid, hne_header, hne_payload, hne_timeline, hne_json, hne_token,
        hne_envelope, hne_alg, hne_enc, hne_spec, hne_version]

theorem containerExportEntries_no_extra_key (c : ContainerParseResult) {key : String}
    (h : key ∉ modelFixedKeys) :
    containsKey (.obj (containerExportEntries c false)) key = false := by
  have h1 := fixedKey_ne "header" (by decide) h
  have h2 := fixedKey_ne "raw" (by decide) h
  have h3 := fixedKey_ne "encoding" (by decide) h
  have h4 := fixedKey_ne "compression" (by decide) h
  have h5 := fixedKey_ne "diagnostics" (by decide) h
  have hdiag : containsKey (.arr (c.diagnostics.map ContainerDiagnostic.toJs)) key = false := by
    apply containsKey_arr_all_false
    intro v hv
    rcases List.mem_map.mp hv with ⟨d, _, rfl⟩
    exact containsKey_ContainerDiagnostic_toJs d h
  simp [containerExportEntries, containsKey_obj_append, containsKey_obj_cons,
    containsKey_obj_nil, containsKey_str, containsKey_num, hdiag, h1, h2, h3, h4, h5]

theorem buildReportExportModel_no_extra_key (svc : ExportServices) (report : AnalysisReport)
    {key : String} (h : key ∉ modelFixedKeys)
    (hfree : ∀ t ∈ report.tokens, tokenFreeFormAvoids t key = true) :
    containsKey (buildReportExportModel svc report false) key = false := by
  have h1 := fixedKey_ne "source" (by decide) h
  have h2 := fixedKey_ne "rawInput" (by decide) h
  have h3 := fixedKey_ne "tokens" (by decide) h
  have h4 := fixedKey_ne "issues" (by decide) h
  have h5 := fixedKey_ne "createdAt" (by decide) h
  have h6 := fixedKey_ne "container" (by decide) h
  have htoks : containsKey
      (.arr (report.tokens.map (fun t => buildTokenExportModel svc t false))) key = false := by
    apply containsKey_arr_all_false
    intro v hv
    rcases List.mem_map.mp hv with ⟨t, ht, rfl⟩
    exact buildTokenExportModel_no_extra_key svc t h (hfree t ht)
  have hiss : containsKey (.arr (report.issues.map Issue.toJs)) key = false := by
    apply containsKey_arr_all_false
    intro v hv
    rcases List.mem_map.mp hv with ⟨i, _, rfl⟩
    exact containsKey_Issue_toJs i h
  unfold buildReportExportModel
  cases hc : report.container with
  | none =>
    simp [containsKey_obj_cons, containsKey_obj_nil, containsKey_str, htoks, hiss,
      h1, h2, h3, h4, h5]
  | some c =>
    simp [containsKey_obj_append, containsKey_obj_cons, containsKey_obj_nil, containsKey_str,
      htoks, hiss, containerExportEntries_no_extra_key c h, h1, h2, h3, h4, h5, h6]

theorem reportJsonModel_no_extra_key (svc : ExportServices) (report : AnalysisReport)
    {key : String} (h : key ∉ modelFixedKeys)
    (hfree : ∀ t ∈ report.tokens, tokenFreeFormAvoids t key = true) :
    containsKey (reportJsonModel svc report false) key = false := by
  by_contra hcontra
  rw [Bool.not_eq_false] at hcontra
  unfold reportJsonModel at hcontra
  have step1 := containsKey_replacer_le _ _ (Nat.le_refl _) key hcontra
  have step2 := containsKey_normalize_le _ _ (Nat.le_refl _) true .string key step1
  rw [buildReportExportModel_no_extra_key svc report h hfree] at step2
  exact Bool.false_ne_true step2

theorem mem_getPreferredKeyOrder {entries : List (String × JsValue)} {k : String} :
    k ∈ getPreferredKeyOrder entries ↔ k ∈ recordKeys entries := by
  constructor
  · exact getPreferredKeyOrder_subset
  · intro hk
    cases ht : getSpecKeyOrder entries with
    | none =>
      rw [getPreferredKeyOrder_fallback entries ht]
      exact mem_sortStringsLex.mpr hk
    | some t =>
      rw [getPreferredKeyOrder_template entries t ht]
      rw [List.mem_append]
      by_cases hkt : k ∈ t
      · left
        refine List.mem_filter.mpr ⟨hkt, ?_⟩
        rw [contains_eq_decide_mem]
        exact decide_eq_true hk
      · right
        rw [mem_sortStringsLex]
        refine List.mem_filter.mpr ⟨List.mem_dedup.mpr hk, ?_⟩
        rw [contains_eq_decide_mem]
        simp [hkt]

theorem normalize_isUndef_false (v : JsValue) (o : Bool) (c : CidSerialization)
    (h : JsValue.isUndef v = false) :
    JsValue.isUndef (normalizeForExportSerialization v o c) = false := by
  cases v with
  | nullV => rw [normalize_nullV]; rfl
  | undef => exact absurd h (by simp [JsValue.isUndef])
  | bytes b => rw [normalize_bytes]; rfl
  | str s => rw [normalize_str]; rfl
  | num m => rw [normalize_num]; rfl
  | bool b => rw [normalize_bool]; rfl
  | cid s => rw [normalize_cid]; cases c <;> rfl
  | obj entries => rw [normalize_obj_eq]; rfl
  | arr elems => rw [normalize_arr_eq]; rfl

theorem find_mem_pickEntries {keys : List String} {entries : List (String × JsValue)}
    {k : String} {e0 : String × JsValue} (hk : k ∈ keys)
    (hf : entries.find? (fun e => e.1 == k) = some e0) : e0 ∈ pickEntries keys entries :=
  List.mem_filterMap.mpr ⟨k, hk, hf⟩

theorem normalize_obj_mem {entries : List (String × JsValue)} {k : String}
    {e0 : String × JsValue} (o : Bool) (c : CidSerialization)
    (hf : entries.find? (fun e => e.1 == k) = some e0)
    (hu : JsValue.isUndef e0.2 = false) :
    ∃ entries2, normalizeForExportSerialization (.obj entries) o c = .obj entries2 ∧
      (k, normalizeForExportSerialization e0.2 o c) ∈ entries2 := by
  have he0 : e0 ∈ entries := List.mem_of_find?_eq_some hf
  have he0k := List.find?_some hf
  have hkk : e0.1 = k := by simpa using he0k
  have hkmem : k ∈ recordKeys entries := by
    unfold recordKeys
    exact List.mem_map.mpr ⟨e0, he0, hkk⟩
  have hkpref : k ∈ getPreferredKeyOrder entries := mem_getPreferredKeyOrder.mpr hkmem
  refine ⟨_, normalize_obj_eq entries o c, ?_⟩
  apply List.mem_filterMap.mpr
  refine ⟨e0, find_mem_pickEntries hkpref hf, ?_⟩
  rw [if_neg (by simp [hu])]
  rw [hkk]

theorem containsKey_replacer_obj_intro {entries : List (String × JsValue)} {k : String}
    {v : JsValue} {key : String} (hmem : (k, v) ∈ entries)
    (hu : JsValue.isUndef v = false)
    (hkey : (k == key) = true ∨ containsKey (reportJsonReplacerDeep v) key = true) :
    containsKey (reportJsonReplacerDeep (.obj entries)) key = true := by
  rw [replacer_obj_eq, containsKey_obj, List.any_eq_true]
  refine ⟨(k, reportJsonReplacerDeep v), ?_, ?_⟩
  · apply List.mem_filterMap.mpr
    exact ⟨(k, v), hmem, by rw [if_neg (by simp [hu])]⟩
  · simpa using hkey

theorem containsKey_replacer_arr_intro {elems : List JsValue} (v : JsValue) {key : String}
    (hmem : v ∈ elems) (hu : JsValue.isUndef v = false)
    (hc : containsKey (reportJsonReplacerDeep v) key = true) :
    containsKey (reportJsonReplacerDeep (.arr elems)) key = true := by
  rw [replacer_arr_eq, containsKey_arr, List.any_eq_true]
  refine ⟨if JsValue.isUndef v then .nullV else reportJsonReplacerDeep v,
    List.mem_map.mpr ⟨v, hmem, rfl⟩, ?_⟩
  rw [if_neg (by simp [hu])]
  exact hc

theorem hasNoCid_normalize_string :
    ∀ (n : Nat) (v : JsValue), sizeOf v ≤ n → ∀ (o : Bool),
      hasNoCid (normalizeForExportSerialization v o .string) = true := by
  intro n
  induction n with
  | zero =>
    intro v hv
    have := sizeOf_pos_js v
    omega
  | succ n ih =>
    intro v hv o
    cases v with
    | obj entries =>
      rw [normalize_obj_eq, hasNoCid_obj, List.all_eq_true]
      intro e he
      rcases List.mem_filterMap.mp he with ⟨⟨k0, v0⟩, hmem0, heq⟩
      have hmem : (k0, v0) ∈ entries := mem_pickEntries hmem0
      by_cases hu : (o && (JsValue.isUndef v0)) = true
      · rw [if_pos hu] at heq
        exact absurd heq (by simp)
      · rw [if_neg hu] at heq
        have he2 : e = (k0, normalizeForExportSerialization v0 o .string) :=
          (Option.some.inj heq).symm
        subst he2
        have hsz : sizeOf v0 ≤ n := by
          have h1 := List.sizeOf_lt_of_mem hmem
          simp [Prod.mk.sizeOf_spec] at h1
          simp only [JsValue.obj.sizeOf_spec] at hv
          omega
        simpa using ih v0 hsz o
    | arr elems =>
      rw [normalize_arr_eq, hasNoCid_arr, List.all_eq_true]
      intro w hw
      rcases List.mem_map.mp hw with ⟨v0, hv0, hveq⟩
      subst hveq
      have hsz : sizeOf v0 ≤ n := by
        have h1 := List.sizeOf_lt_of_mem hv0
        simp only [JsValue.arr.sizeOf_spec] at hv
        omega
      simpa using ih v0 hsz o
    | nullV => rw [normalize_nullV]; simp [hasNoCid]
    | undef => rw [normalize_undef]; simp [hasNoCid]
    | bytes b => rw [normalize_bytes]; simp [hasNoCid]
    | str s => rw [normalize_str]; simp [hasNoCid]
    | num m => rw [normalize_num]; simp [hasNoCid]
    | bool b => rw [normalize_bool]; simp [hasNoCid]
    | cid s => rw [normalize_cid]; simp [hasNoCid]

theorem jsonReady_replacer :
    ∀ (n : Nat) (v : JsValue), sizeOf v ≤ n → hasNoCid v = true →
      JsValue.isUndef v = false → jsonReady (reportJsonReplacerDeep v) = true := by
  intro n
  induction n with
  | zero =>
    intro v hv
    have := sizeOf_pos_js v
    omega
  | succ n ih =>
    intro v hv hnc hnu
    cases v with
    | obj entries =>
      rw [replacer_obj_eq, jsonReady_obj, List.all_eq_true]
      intro e he
      rcases List.mem_filterMap.mp he with ⟨⟨k0, v0⟩, hmem, heq⟩
      by_cases hu : (JsValue.isUndef v0) = true
      · rw [if_pos hu] at heq
        exact absurd heq (by simp)
      · rw [if_neg hu] at heq
        have he2 : e = (k0, reportJsonReplacerDeep v0) := (Option.some.inj heq).symm
        subst he2
        have hsz : sizeOf v0 ≤ n := by
          have h1 := List.sizeOf_lt_of_mem hmem
          simp [Prod.mk.sizeOf_spec] at h1
          simp only [JsValue.obj.sizeOf_spec] at hv
          omega
        have hnc0 : hasNoCid v0 = true := by
          rw [hasNoCid_obj, List.all_eq_true] at hnc
          simpa using hnc (k0, v0) hmem
        simpa using ih v0 hsz hnc0 (by simpa using hu)
    | arr elems =>
      rw [replacer_arr_eq, jsonReady_arr, List.all_eq_true]
      intro w hw
      rcases List.mem_map.mp hw with ⟨v0, hv0, hveq⟩
      subst hveq
      by_cases hu : (JsValue.isUndef v0) = true
      · rw [if_pos hu]
        simp [jsonReady]
      · rw [if_neg hu]
        have hsz : sizeOf v0 ≤ n := by
          have h1 := List.sizeOf_lt_of_mem hv0
          simp only [JsValue.arr.sizeOf_spec] at hv
          omega
        have hnc0 : hasNoCid v0 = true := by
          rw [hasNoCid_arr, List.all_eq_true] at hnc
          simpa using hnc v0 hv0
        exact ih v0 hsz hnc0 (by simpa using hu)
    | bytes b => rw [replacer_bytes]; simp [jsonReady]
    | nullV => rw [replacer_leaf _ (by simp) (by simp) (by simp)]; simp [jsonReady]
    | undef => exact absurd hnu (by simp [JsValue.isUndef])
    | str s => rw [replacer_leaf _ (by simp) (by simp) (by simp)]; simp [jsonReady]
    | num m => rw [replacer_leaf _ (by simp) (by simp) (by simp)]; simp [jsonReady]
    | bool b => rw [replacer_leaf _ (by simp) (by simp) (by simp)]; simp [jsonReady]
    | cid s => exact absurd hnc (by simp [hasNoCid])

theorem jsonReady_reportJsonModel (svc : ExportServices) (report : AnalysisReport)
    (includeRawBytes : Bool) :
    jsonReady (reportJsonModel svc report includeRawBytes) = true := by
  unfold reportJsonModel
  have hnc := hasNoCid_normalize_string _ (buildReportExportModel svc report includeRawBytes)
    (Nat.le_refl _) true
  have hnu : JsValue.isUndef (buildReportExportModel svc report includeRawBytes) = false := by
    unfold buildReportExportModel
    cases report.container <;> rfl
  exact jsonReady_replacer _ _ (Nat.le_refl _) hnc
    (normalize_isUndef_false _ true .string hnu)

theorem reportJsonModel_top (svc : ExportServices) (report : AnalysisReport) (b : Bool) :
    ∃ entries2, reportJsonModel svc report b = reportJsonReplacerDeep (.obj entries2) ∧
      ("tokens", normalizeForExportSerialization
        (.arr (report.tokens.map (fun t => buildTokenExportModel svc t b))) true .string) ∈
        entries2 := by
  unfold reportJsonModel buildReportExportModel
  cases hc : report.container with
  | none =>
    have hfind : [("source", JsValue.str report.source),
        ("rawInput", JsValue.str report.rawInput),
        ("tokens", JsValue.arr (report.tokens.map (fun t => buildTokenExportModel svc t b))),
        ("issues", JsValue.arr (report.issues.map Issue.toJs)),
        ("createdAt", JsValue.str report.createdAt)].find? (fun e => e.1 == "tokens") =
        some ("tokens", JsValue.arr
          (report.tokens.map (fun t => buildTokenExportModel svc t b))) := by
      simp [List.find?]
    rcases normalize_obj_mem true CidSerialization.string hfind (by rfl) with ⟨e2, heq, hmem⟩
    exact ⟨e2, by rw [heq], hmem⟩
  | some c =>
    have hfind : ([("source", JsValue.str report.source),
        ("rawInput", JsValue.str report.rawInput),
        ("tokens", JsValue.arr (report.tokens.map (fun t => buildTokenExportModel svc t b))),
        ("issues", JsValue.arr (report.issues.map Issue.toJs)),
        ("createdAt", JsValue.str report.createdAt)] ++
        [("container", JsValue.obj (containerExportEntries c b))]).find?
          (fun e => e.1 == "tokens") =
        some ("tokens", JsValue.arr
          (report.tokens.map (fun t => buildTokenExportModel svc t b))) := by
      simp [List.find?]
    rcases normalize_obj_mem true CidSerialization.string hfind (by rfl) with ⟨e2, heq, hmem⟩
    exact ⟨e2, by rw [heq], hmem⟩

theorem reportJsonModel_has_tokens (svc : ExportServices) (report : AnalysisReport) (b : Bool) :
    containsKey (reportJsonModel svc report b) "tokens" = true := by
  rcases reportJsonModel_top svc report b with ⟨e2, heq, hmem⟩
  rw [heq]
  apply containsKey_replacer_obj_intro hmem
  · rw [normalize_arr_eq]
    rfl
  · exact Or.inl (by rfl)

theorem buildTokenExportModel_find_bytes (svc : ExportServices) (token : TokenAnalysis) :
    ∃ entries, buildTokenExportModel svc token true = .obj entries ∧
      entries.find? (fun e => e.1 == "bytes") = some ("bytes", .bytes token.bytes) := by
  cases hv : token.view with
  | unknown reason =>
    simp only [buildTokenExportModel, hv]
    refine ⟨_, rfl, ?_⟩
    simp [List.find?]
  | delegation v =>
    simp only [buildTokenExportModel, hv]
    refine ⟨_, rfl, ?_⟩
    simp [List.find?]
  | invocation v =>
    simp only [buildTokenExportModel, hv]
    refine ⟨_, rfl, ?_⟩
    simp [List.find?]

theorem reportJsonModel_raw_bytes_opt_in (svc : ExportServices) (report : AnalysisReport)
    (hne : report.tokens ≠ []) :
    containsKey (reportJsonModel svc report true) "bytes" = true := by
  rcases reportJsonModel_top svc report true with ⟨e2, heq, hmem⟩
  rw [heq]
  apply containsKey_replacer_obj_intro hmem
  · rw [normalize_arr_eq]
    rfl
  refine Or.inr ?_
  rw [normalize_arr_eq]
  rcases ht : report.tokens with _ | ⟨t0, rest⟩
  · exact absurd ht hne
  rcases buildTokenExportModel_find_bytes svc t0 with ⟨mE, hmEq, hmFind⟩
  rcases normalize_obj_mem true CidSerialization.string hmFind (by rfl) with ⟨e3, hNEq, hNmem⟩
  apply containsKey_replacer_arr_intro
    (normalizeForExportSerialization (buildTokenExportModel svc t0 true) true .string)
  · exact List.mem_map.mpr ⟨buildTokenExportModel svc t0 true,
      List.mem_map.mpr ⟨t0, List.mem_cons_self t0 rest, rfl⟩, rfl⟩
  · rw [hmEq, hNEq]
    rfl
  · rw [hmEq, hNEq]
    apply containsKey_replacer_obj_intro hNmem
    · rw [normalize_bytes]
      rfl
    · exact Or.inl (by rfl)

/-- C9: in the plain-JSON report export, raw byte fields are suppressed by
default and only appear on explicit opt-in, and serialized bytes/CIDs are
rendered as strings.  For any export services and any report whose tokens'
free-form JSON fields (`pol`/`args`/`meta`) avoid the raw-byte key names:
the default serialization tree (`includeRawBytes = false`) contains no key
`bytes`, `payloadBytes` or `cbor` anywhere; it always contains the `tokens`
key; the container model omits its raw token byte list by default (its keys
are exactly `header` and `diagnostics`); opting in with
`includeRawBytes = true` makes `bytes` appear (whenever there is at least
one token); the serialized tree is plain-JSON ready — no raw byte value, no
CID value and no `undefined` survive — because every `Uint8Array` is
rewritten to its standard-alphabet base64 string and every CID to its
string form. -/
theorem C9_export_byte_suppression (svc : ExportServices) (report : AnalysisReport)
    (hfree : ∀ t ∈ report.tokens, tokenFreeFormAvoids t "bytes" = true ∧
      tokenFreeFormAvoids t "payloadBytes" = true ∧ tokenFreeFormAvoids t "cbor" = true) :
    containsKey (reportJsonModel svc report false) "bytes" = false ∧
    containsKey (reportJsonModel svc report false) "payloadBytes" = false ∧
    containsKey (reportJsonModel svc report false) "cbor" = false ∧
    containsKey (reportJsonModel svc report false) "tokens" = true ∧
    (∀ c, recordKeys (containerExportEntries c false) = ["header", "diagnostics"]) ∧
    (report.tokens ≠ [] → containsKey (reportJsonModel svc report true) "bytes" = true) ∧
    (∀ b, jsonReady (reportJsonModel svc report b) = true) ∧
    (∀ bts, reportJsonReplacerDeep (.bytes bts) = .str (encodeBase64 bts .standard)) ∧
    (∀ s o, normalizeForExportSerialization (.cid s) o .string = .str s) := by
  refine ⟨?_, ?_, ?_, ?_, ?_, ?_, ?_, ?_, ?_⟩
  · exact reportJsonModel_no_extra_key svc report (by decide) (fun t ht => (hfree t ht).1)
  · exact reportJsonModel_no_extra_key svc report (by decide) (fun t ht => (hfree t ht).2.1)
  · exact reportJsonModel_no_extra_key svc report (by decide) (fun t ht => (hfree t ht).2.2)
  · exact reportJsonModel_has_tokens svc report false
  · intro c
    rfl
  · exact reportJsonModel_raw_bytes_opt_in svc report
  · exact jsonReady_reportJsonModel svc report
  · exact replacer_bytes
  · intro s o
    rw [normalize_cid]

/-- Export services for the C9 witness: no string parses as a CID and
nothing base64-decodes. -/
def sampleExportServices : ExportServices :=
  { cidParseOk := fun _ => false, decodeBase64 := fun _ => Except.error "bad" }

/-- A single analysed token of `unknown` view, for the C9 witness. -/
def sampleUnknownToken : TokenAnalysis :=
  { id := "token-0", index := 0, tokenBase64 := "AQIDBA==", bytes := [1, 2, 3, 4],
    issues := [], signature := { status := .skipped, reason := Option.none },
    view := .unknown "envelope decode failed" }

/-- A one-token report without container, for the C9 witness. -/
def sampleExportReport : AnalysisReport :=
  { source := "paste", rawInput := "AQIDBA==", container := Option.none,
    tokens := [sampleUnknownToken], issues := [], createdAt := "2024-05-01T00:00:00Z" }

/-- C9 witness: the free-form cleanliness hypothesis holds at a concrete
one-token report, and the suppression/opt-in/readiness conclusions follow
for it. -/
theorem C9_export_byte_suppression_witness :
    (∀ t ∈ sampleExportReport.tokens, tokenFreeFormAvoids t "bytes" = true ∧
      tokenFreeFormAvoids t "payloadBytes" = true ∧ tokenFreeFormAvoids t "cbor" = true) ∧
    (containsKey (reportJsonModel sampleExportServices sampleExportReport false) "bytes" =
        false ∧
      containsKey (reportJsonModel sampleExportServices sampleExportReport false)
        "payloadBytes" = false ∧
      containsKey (reportJsonModel sampleExportServices sampleExportReport false) "cbor" =
        false ∧
      containsKey (reportJsonModel sampleExportServices sampleExportReport false) "tokens" =
        true ∧
      (∀ c, recordKeys (containerExportEntries c false) = ["header", "diagnostics"]) ∧
      (sampleExportReport.tokens ≠ [] →
        containsKey (reportJsonModel sampleExportServices sampleExportReport true) "bytes" =
          true) ∧
      (∀ b, jsonReady (reportJsonModel sampleExportServices sampleExportReport b) = true) ∧
      (∀ bts, reportJsonReplacerDeep (.bytes bts) = .str (encodeBase64 bts .standard)) ∧
      (∀ s o, normalizeForExportSerialization (.cid s) o .string = .str s)) := by
  have hfree : ∀ t ∈ sampleExportReport.tokens, tokenFreeFormAvoids t "bytes" = true ∧
      tokenFreeFormAvoids t "payloadBytes" = true ∧ tokenFreeFormAvoids t "cbor" = true := by
    intro t ht
    simp only [sampleExportReport, List.mem_singleton] at ht
    subst ht
    exact ⟨rfl, rfl, rfl⟩
  exact ⟨hfree, C9_export_byte_suppression sampleExportServices sampleExportReport hfree⟩

end UcanInspector
